import Mathlib

/-!
# Integral image and Haar features

A shallow embedding of `dlib/image_transforms/integral_image.h`:
the class `integral_image` (`load`, `get_sum_of_area`, `nr`, `nc`), the free
function `get_rect` and the two wavelet responses `haar_x` and `haar_y`.

Conventions of the embedding

* `unsigned long` is a natural number kept below `2^64`; every unsigned
  addition and subtraction is reduced modulo `2^64` (`uadd`, `usub`).
* `long` is an integer; the conversion of an `unsigned long` into the `long`
  result of `get_sum_of_area` is the two's complement one (`to_long`).  The
  only signed arithmetic on pixel sums, the subtraction in `haar_x` and
  `haar_y`, is checked: leaving the 64-bit range is the fault `overflow`.
* Coordinates of points and rectangles are unbounded integers.
* A run of the code is a value of `Except Fault`: `contract` is a failed
  `DLIB_ASSERT`, `outOfRange` an access to an array element that does not
  exist.
-/

namespace dlib

/-- Ways in which a run leaves the defined behaviour of the code. -/
inductive Fault where
  /-- A `DLIB_ASSERT` precondition check failed. -/
  | contract
  /-- An element outside `0 ≤ row < nr`, `0 ≤ column < nc` was accessed. -/
  | outOfRange
  /-- Signed `long` arithmetic left the 64-bit range. -/
  | overflow
  deriving DecidableEq, Repr

/-- Equality of runs is decidable, so closed runs can be evaluated. -/
instance instDecidableEqRun {α : Type} [DecidableEq α] : DecidableEq (Except Fault α)
  | .ok a, .ok b =>
    if h : a = b then isTrue (by rw [h]) else isFalse (fun h' => h (by cases h'; rfl))
  | .error e, .error f =>
    if h : e = f then isTrue (by rw [h]) else isFalse (fun h' => h (by cases h'; rfl))
  | .ok _, .error _ => isFalse (fun h' => by cases h')
  | .error _, .ok _ => isFalse (fun h' => by cases h')

/-! ## Machine integers -/

/-- Number of values of an `unsigned long`: `2^64`. -/
def ULONG_SIZE : Nat := 18446744073709551616

/-- One more than the largest `long`: `2^63`. -/
def LONG_LIMIT : Nat := 9223372036854775808

/-- Reduction of an integer to the `unsigned long` that represents it. -/
def wrap (x : Int) : Nat := (x % (ULONG_SIZE : Int)).toNat

/-- Addition of two `unsigned long` values. -/
def uadd (a b : Nat) : Nat := wrap ((a : Int) + (b : Int))

/-- Subtraction of two `unsigned long` values. -/
def usub (a b : Nat) : Nat := wrap ((a : Int) - (b : Int))

/-- Conversion of an `unsigned long` to `long`. -/
def to_long (a : Nat) : Int :=
  if a % ULONG_SIZE < LONG_LIMIT then ((a % ULONG_SIZE : Nat) : Int)
  else ((a % ULONG_SIZE : Nat) : Int) - (ULONG_SIZE : Int)

/-- Subtraction of two `long` values; overflow is undefined in the source. -/
def long_sub (a b : Int) : Except Fault Int :=
  if -(LONG_LIMIT : Int) ≤ a - b ∧ a - b < (LONG_LIMIT : Int) then pure (a - b)
  else throw Fault.overflow

/-! ## Collaborators: points, rectangles, two-dimensional arrays, pixel grids -/

/-- Modelled from the spec: the point abstraction of `dlib/geometry` (not among
the sources), "integer x/y accessors". -/
structure point where
  x : Int
  y : Int
  deriving DecidableEq, Repr

/-- Modelled from the spec: the rectangle abstraction of `dlib/geometry` (not
among the sources), "an axis-aligned integer rectangle identified by
left/top/right/bottom inclusive bounds". -/
structure rectangle where
  left : Int
  top : Int
  right : Int
  bottom : Int
  deriving DecidableEq, Repr

/-- Modelled from the spec: `rectangle::is_empty` of `dlib/geometry` (not among
the sources); a rectangle is empty ("degenerate") when `right < left` or
`bottom < top`. -/
def rectangle.is_empty (a : rectangle) : Bool :=
  decide (a.top > a.bottom ∨ a.left > a.right)

/-- Modelled from the spec: `rectangle::operator+` of `dlib/geometry` (not among
the sources), the smallest rectangle holding both operands, where an empty
operand contributes nothing. -/
def rectangle.add (a rhs : rectangle) : rectangle :=
  if rhs.is_empty then a
  else if a.is_empty then rhs
  else ⟨min a.left rhs.left, min a.top rhs.top, max a.right rhs.right, max a.bottom rhs.bottom⟩

/-- Modelled from the spec: `rectangle::contains(const rectangle&)` of
`dlib/geometry` (not among the sources), the "containment test against another
rectangle": `rect + *this == *this`.  A non-empty rectangle contains every
empty one, and an empty one contains only itself ("queries over the empty
extent are valid only for the empty rectangle"). -/
def rectangle.contains (a rect : rectangle) : Bool :=
  decide (rect.add a = a)

/-- Modelled from the spec: `centered_rect` of `dlib/geometry` (not among the
sources), the "rectangle centered at point with given width/height": columns
`[x - width/2, x - width/2 + width - 1]`, rows
`[y - height/2, y - height/2 + height - 1]`, the division truncating. -/
def centered_rect (p : point) (width height : Int) : rectangle :=
  let left := p.x - width.tdiv 2
  let top := p.y - height.tdiv 2
  ⟨left, top, left + width - 1, top + height - 1⟩

/-- Modelled from the spec: the readable pixel grid handed to `load` (an image
type of dlib, not among the sources): "`rows()`, `cols()`, and row/column
indexed element access". -/
structure Grid (α : Type) where
  nr : Nat
  nc : Nat
  pix : Nat → Nat → α

/-- Element access `img[r][c]` of a pixel grid. -/
def Grid.read {α : Type} (img : Grid α) (r c : Nat) : Except Fault α :=
  if r < img.nr ∧ c < img.nc then pure (img.pix r c) else throw Fault.outOfRange

/-- Modelled from the spec: `array2d<unsigned long>` of `dlib/array2d` (not
among the sources), "an owned 2D array of unsigned integer accumulators" with
its dimensions. -/
structure array2d where
  nr : Nat
  nc : Nat
  cell : Nat → Nat → Nat

/-- Modelled from the spec: `array2d::set_size` of `dlib/array2d` (not among the
sources), "resizes internal storage to the grid's (rows, cols)".  Storage that
already has the requested size is kept; new storage holds the unspecified
values `junk`. -/
def array2d.set_size (junk : Nat → Nat → Nat) (a : array2d) (nr nc : Nat) : array2d :=
  if a.nr = nr ∧ a.nc = nc then a else ⟨nr, nc, junk⟩

/-- Read of `a[r][c]` with unsigned indices. -/
def array2d.read (a : array2d) (r c : Nat) : Except Fault Nat :=
  if r < a.nr ∧ c < a.nc then pure (a.cell r c) else throw Fault.outOfRange

/-- Read of `a[r][c]` with `long` indices. -/
def array2d.read_long (a : array2d) (r c : Int) : Except Fault Nat :=
  if 0 ≤ r ∧ 0 ≤ c then a.read r.toNat c.toNat else throw Fault.outOfRange

/-- Assignment `a[r][c] = v`. -/
def array2d.write (a : array2d) (r c v : Nat) : Except Fault array2d :=
  if r < a.nr ∧ c < a.nc then
    pure ⟨a.nr, a.nc, fun i j => if i = r ∧ j = c then v else a.cell i j⟩
  else throw Fault.outOfRange

/-! ## The class `integral_image` -/

/-- The class `integral_image`: its only member is the table `int_img`. -/
structure integral_image where
  int_img : array2d

/-- A default-constructed `integral_image`: the table has no rows and no
columns. -/
def integral_image.empty : integral_image := ⟨⟨0, 0, fun _ _ => 0⟩⟩

/-- Member `nr()`. -/
def integral_image.nr (self : integral_image) : Int := (self.int_img.nr : Int)

/-- Member `nc()`. -/
def integral_image.nc (self : integral_image) : Int := (self.int_img.nc : Int)

/-- Body of the loop over the first row in `load`; the state is `temp` and the
table. -/
def load_first_row_step {α : Type} (assign_pixel : α → Nat) (img : Grid α) (c : Nat)
    (s : Nat × array2d) : Except Fault (Nat × array2d) := do
  let pixel := assign_pixel (← img.read 0 c)
  let temp := uadd s.1 pixel
  let int_img ← s.2.write 0 c temp
  pure (temp, int_img)

/-- Body of the inner loop over the row `r ≥ 1` in `load`. -/
def load_row_step {α : Type} (assign_pixel : α → Nat) (img : Grid α) (r c : Nat)
    (s : Nat × array2d) : Except Fault (Nat × array2d) := do
  let pixel := assign_pixel (← img.read r c)
  let temp := uadd s.1 pixel
  let above ← s.2.read (r - 1) c
  let int_img ← s.2.write r c (uadd temp above)
  pure (temp, int_img)

/-- Body of the outer loop of `load`: `temp = 0`, then the inner loop over the
columns of row `r`. -/
def load_row {α : Type} (assign_pixel : α → Nat) (img : Grid α) (int_img : array2d)
    (r : Nat) : Except Fault array2d := do
  let s ← (List.range img.nc).foldlM (fun s c => load_row_step assign_pixel img r c s)
    (0, int_img)
  pure s.2

/-- Member `load(img)`.  `assign_pixel` is the external conversion of a pixel
to the `unsigned long pixel`. -/
def integral_image.load {α : Type} (assign_pixel : α → Nat) (junk : Nat → Nat → Nat)
    (self : integral_image) (img : Grid α) : Except Fault integral_image := do
  let int_img := self.int_img.set_size junk img.nr img.nc
  -- compute the first row of the integral image
  let s ← (List.range img.nc).foldlM (fun s c => load_first_row_step assign_pixel img c s)
    (0, int_img)
  -- now compute the rest of the integral image
  let int_img ← (List.range' 1 (img.nr - 1)).foldlM (load_row assign_pixel img) s.2
  pure ⟨int_img⟩

/-- Free function `get_rect(img)`: `rectangle(0, 0, img.nc()-1, img.nr()-1)`. -/
def get_rect (img : integral_image) : rectangle :=
  ⟨0, 0, img.nc - 1, img.nr - 1⟩

/-- Member `get_sum_of_area(rect)`. -/
def integral_image.get_sum_of_area (self : integral_image) (rect : rectangle) :
    Except Fault Int := do
  if (get_rect self).contains rect = false then throw Fault.contract
  let bottom_right ← self.int_img.read_long rect.bottom rect.right
  let (top_left, bottom_left, top_right) ←
    (if rect.left - 1 ≥ 0 ∧ rect.top - 1 ≥ 0 then do
      let top_left ← self.int_img.read_long (rect.top - 1) (rect.left - 1)
      let bottom_left ← self.int_img.read_long rect.bottom (rect.left - 1)
      let top_right ← self.int_img.read_long (rect.top - 1) rect.right
      pure (top_left, bottom_left, top_right)
    else if rect.left - 1 ≥ 0 then do
      let bottom_left ← self.int_img.read_long rect.bottom (rect.left - 1)
      pure (0, bottom_left, 0)
    else if rect.top - 1 ≥ 0 then do
      let top_right ← self.int_img.read_long (rect.top - 1) rect.right
      pure (0, 0, top_right)
    else pure (0, 0, 0) : Except Fault (Nat × Nat × Nat))
  pure (to_long (uadd (usub (usub bottom_right bottom_left) top_right) top_left))

/-- Left rectangle built by `haar_x`. -/
def haar_x_left_rect (p : point) (width : Int) : rectangle :=
  let left := p.x - width.tdiv 2
  let top := p.y - width.tdiv 2
  ⟨left, top, p.x - 1, top + width - 1⟩

/-- Right rectangle built by `haar_x`. -/
def haar_x_right_rect (p : point) (width : Int) : rectangle :=
  let left_rect := haar_x_left_rect p width
  ⟨p.x, left_rect.top, left_rect.left + width - 1, left_rect.bottom⟩

/-- Free function `haar_x(img, p, width)`. -/
def haar_x (img : integral_image) (p : point) (width : Int) : Except Fault Int := do
  if (get_rect img).contains (centered_rect p width width) = false then throw Fault.contract
  let right ← img.get_sum_of_area (haar_x_right_rect p width)
  let left ← img.get_sum_of_area (haar_x_left_rect p width)
  long_sub right left

/-- Top rectangle built by `haar_y`. -/
def haar_y_top_rect (p : point) (width : Int) : rectangle :=
  let left := p.x - width.tdiv 2
  let top := p.y - width.tdiv 2
  ⟨left, top, left + width - 1, p.y - 1⟩

/-- Bottom rectangle built by `haar_y`. -/
def haar_y_bottom_rect (p : point) (width : Int) : rectangle :=
  let top_rect := haar_y_top_rect p width
  ⟨top_rect.left, p.y, top_rect.right, top_rect.top + width - 1⟩

/-- Free function `haar_y(img, p, width)`. -/
def haar_y (img : integral_image) (p : point) (width : Int) : Except Fault Int := do
  if (get_rect img).contains (centered_rect p width width) = false then throw Fault.contract
  let bottom ← img.get_sum_of_area (haar_y_bottom_rect p width)
  let top ← img.get_sum_of_area (haar_y_top_rect p width)
  long_sub bottom top

/-! ## Brute-force sums -/

/-- Sum of `f 0, ..., f (n-1)`. -/
def sum_below (f : Nat → Nat) : Nat → Nat
  | 0 => 0
  | n + 1 => sum_below f n + f n

/-- Sum of `f lo, ..., f hi`; zero when `hi < lo`. -/
def sum_range (f : Nat → Nat) (lo hi : Int) : Nat :=
  sum_below (fun k => f (lo + (k : Int)).toNat) (hi + 1 - lo).toNat

/-- Brute-force sum of the pixel scalars of `img` over the rows `[top, bottom]`
and the columns `[left, right]` of `rect`. -/
def brute_sum {α : Type} (assign_pixel : α → Nat) (img : Grid α) (rect : rectangle) : Nat :=
  sum_range (fun r => sum_range (fun c => assign_pixel (img.pix r c)) rect.left rect.right)
    rect.top rect.bottom

/-- Sum of the pixel scalars of row `r` of `img` over the columns below `c`. -/
def row_sum {α : Type} (assign_pixel : α → Nat) (img : Grid α) (r c : Nat) : Nat :=
  sum_below (fun j => assign_pixel (img.pix r j)) c

/-- Sum of the pixel scalars of `img` over the rows below `r` and the columns
below `c`. -/
def prefix_sum {α : Type} (assign_pixel : α → Nat) (img : Grid α) (r c : Nat) : Nat :=
  sum_below (fun i => row_sum assign_pixel img i c) r

/-- The table `a` extended by zero at every index with a negative row or a
negative column. -/
def array2d.padded (a : array2d) (r c : Int) : Nat :=
  if r < 0 ∨ c < 0 then 0 else a.cell r.toNat c.toNat

/-- The grid of `nr` rows and `nc` columns whose pixels are all `v`. -/
def Grid.const (nr nc v : Nat) : Grid Nat := ⟨nr, nc, fun _ _ => v⟩


/-- Number of columns of the column range `[left, right]` of a rectangle. -/
def rectangle.columns (a : rectangle) : Int := a.right - a.left + 1

/-- Number of rows of the row range `[top, bottom]` of a rectangle. -/
def rectangle.rows (a : rectangle) : Int := a.bottom - a.top + 1

/-- The pixel in column `x` and row `y` lies in the rectangle. -/
def rectangle.covers (a : rectangle) (x y : Int) : Prop :=
  a.left ≤ x ∧ x ≤ a.right ∧ a.top ≤ y ∧ y ≤ a.bottom

/-- The uniform four-term formula
`P'[b][r] - P'[b][l-1] - P'[t-1][r] + P'[t-1][l-1]` over the table extended by
zero at row -1 and column -1 (`padded`), as an integer. -/
def four_term_formula (a : array2d) (rect : rectangle) : Int :=
  (a.padded rect.bottom rect.right : Int) - (a.padded rect.bottom (rect.left - 1) : Int)
    - (a.padded (rect.top - 1) rect.right : Int)
    + (a.padded (rect.top - 1) (rect.left - 1) : Int)

/-- The rectangle sum as the spec's zero-padding variant computes it: always
the four-term formula over the padded table, without branches, in the
arithmetic of `get_sum_of_area` (`unsigned long` terms, `long` result). -/
def get_sum_of_area_uniform (self : integral_image) (rect : rectangle) : Int :=
  to_long (uadd (usub (usub (self.int_img.padded rect.bottom rect.right)
    (self.int_img.padded rect.bottom (rect.left - 1)))
    (self.int_img.padded (rect.top - 1) rect.right))
    (self.int_img.padded (rect.top - 1) (rect.left - 1)))

/-- The grid `img` with the columns of `rect` reversed inside `rect`: in the
rows of `rect`, the pixel in a column `c` of `rect` is the pixel of `img` in the
column `left + right - c`; all other pixels are those of `img`. -/
def Grid.mirror_columns {α : Type} (img : Grid α) (rect : rectangle) : Grid α :=
  ⟨img.nr, img.nc, fun r c =>
    if rect.left ≤ (c : Int) ∧ (c : Int) ≤ rect.right ∧ rect.top ≤ (r : Int)
        ∧ (r : Int) ≤ rect.bottom
    then img.pix r (rect.left + rect.right - (c : Int)).toNat
    else img.pix r c⟩

/-! ## Arithmetic of the machine integers -/

theorem wrap_natCast (n : Nat) : wrap (n : Int) = n % ULONG_SIZE := by
  unfold wrap
  rw [← Int.natCast_mod]
  exact Int.toNat_natCast _

theorem wrap_lt (x : Int) : wrap x < ULONG_SIZE := by
  unfold wrap
  have h1 : (0 : Int) ≤ x % (ULONG_SIZE : Int) := Int.emod_nonneg _ (by simp [ULONG_SIZE])
  have h2 : x % (ULONG_SIZE : Int) < (ULONG_SIZE : Int) := Int.emod_lt_of_pos _ (by simp [ULONG_SIZE])
  omega

theorem wrap_cast (x : Int) : ((wrap x : Nat) : Int) = x % (ULONG_SIZE : Int) := by
  unfold wrap
  exact Int.toNat_of_nonneg (Int.emod_nonneg _ (by simp [ULONG_SIZE]))

theorem uadd_eq (a b : Nat) : uadd a b = (a + b) % ULONG_SIZE := by
  unfold uadd
  rw [← Int.natCast_add, wrap_natCast]

theorem uadd_mod_left (a b : Nat) : uadd (a % ULONG_SIZE) b = (a + b) % ULONG_SIZE := by
  rw [uadd_eq, Nat.mod_add_mod]

theorem uadd_mod_mod (a b : Nat) :
    uadd (a % ULONG_SIZE) (b % ULONG_SIZE) = (a + b) % ULONG_SIZE := by
  rw [uadd_eq, ← Nat.add_mod]

/-! ## Loops over `List.range` -/

theorem foldlM_range_succ {σ : Type} (f : σ → Nat → Except Fault σ) (s : σ) (n : Nat) :
    (List.range (n + 1)).foldlM f s = ((List.range n).foldlM f s >>= fun s' => f s' n) := by
  rw [List.range_succ, List.foldlM_append]
  simp

theorem foldlM_range'_succ {σ : Type} (f : σ → Nat → Except Fault σ) (s : σ) (a n : Nat) :
    (List.range' a (n + 1)).foldlM f s
      = ((List.range' a n).foldlM f s >>= fun s' => f s' (a + n)) := by
  rw [List.range'_concat, List.foldlM_append]
  simp


/-! ## The loops of `load` -/

theorem first_row_loop {α : Type} (assign_pixel : α → Nat) (img : Grid α) (t0 : array2d)
    (h0 : 0 < img.nr) (hr : 0 < t0.nr) (hc : t0.nc = img.nc) (n : Nat) (hn : n ≤ img.nc) :
    ∃ t, (List.range n).foldlM (fun s c => load_first_row_step assign_pixel img c s) (0, t0)
        = Except.ok (row_sum assign_pixel img 0 n % ULONG_SIZE, t)
      ∧ t.nr = t0.nr ∧ t.nc = t0.nc
      ∧ (∀ c, c < n → t.cell 0 c = row_sum assign_pixel img 0 (c + 1) % ULONG_SIZE)
      ∧ (∀ i j, ¬ (i = 0 ∧ j < n) → t.cell i j = t0.cell i j) := by
  induction n with
  | zero =>
    refine ⟨t0, ?_, rfl, rfl, ?_, ?_⟩
    · simp [row_sum, sum_below, pure, Except.pure]
    · intro c hc; omega
    · intro i j _; rfl
  | succ n ih =>
    obtain ⟨t, hrun, hnr, hnc, hrow, hrest⟩ := ih (by omega)
    have hin : 0 < img.nr ∧ n < img.nc := ⟨h0, by omega⟩
    have hin2 : 0 < t.nr ∧ n < t.nc := ⟨by omega, by omega⟩
    refine ⟨⟨t.nr, t.nc, fun i j => if i = 0 ∧ j = n then
      row_sum assign_pixel img 0 (n + 1) % ULONG_SIZE else t.cell i j⟩, ?_, hnr, hnc, ?_, ?_⟩
    · rw [foldlM_range_succ, hrun]
      simp [load_first_row_step, Grid.read, array2d.write, hin, hin2, bind, Except.bind, pure,
        Except.pure, uadd_mod_left, row_sum, sum_below]
    · intro c hc
      by_cases hcn : c = n
      · subst hcn; simp
      · have : c < n := by omega
        simp [hcn, hrow c this]
    · intro i j hij
      have : ¬ (i = 0 ∧ j = n) := by omega
      have h2 : ¬ (i = 0 ∧ j < n) := by omega
      simp only [this, if_false]
      exact hrest i j h2

theorem row_loop {α : Type} (assign_pixel : α → Nat) (img : Grid α) (t0 : array2d) (r : Nat)
    (hr1 : 1 ≤ r) (hr : r < img.nr) (hnr : t0.nr = img.nr) (hnc : t0.nc = img.nc)
    (n : Nat) (hn : n ≤ img.nc) :
    ∃ t, (List.range n).foldlM (fun s c => load_row_step assign_pixel img r c s) (0, t0)
        = Except.ok (row_sum assign_pixel img r n % ULONG_SIZE, t)
      ∧ t.nr = t0.nr ∧ t.nc = t0.nc
      ∧ (∀ c, c < n → t.cell r c
          = uadd (row_sum assign_pixel img r (c + 1) % ULONG_SIZE) (t0.cell (r - 1) c))
      ∧ (∀ i j, ¬ (i = r ∧ j < n) → t.cell i j = t0.cell i j) := by
  induction n with
  | zero =>
    refine ⟨t0, ?_, rfl, rfl, ?_, ?_⟩
    · simp [row_sum, sum_below, pure, Except.pure]
    · intro c hc; omega
    · intro i j _; rfl
  | succ n ih =>
    obtain ⟨t, hrun, htr, htc, hrow, hrest⟩ := ih (by omega)
    have hin : r < img.nr ∧ n < img.nc := ⟨hr, by omega⟩
    have hin2 : r < t.nr ∧ n < t.nc := ⟨by omega, by omega⟩
    have hin3 : r - 1 < t.nr ∧ n < t.nc := ⟨by omega, by omega⟩
    have habove : t.cell (r - 1) n = t0.cell (r - 1) n := hrest _ _ (by omega)
    refine ⟨⟨t.nr, t.nc, fun i j => if i = r ∧ j = n then
      uadd (row_sum assign_pixel img r (n + 1) % ULONG_SIZE) (t0.cell (r - 1) n)
      else t.cell i j⟩, ?_, htr, htc, ?_, ?_⟩
    · rw [foldlM_range_succ, hrun]
      simp [load_row_step, Grid.read, array2d.write, array2d.read, hin, hin2, hin3, habove, bind,
        Except.bind, pure, Except.pure, uadd_mod_left, row_sum, sum_below]
    · intro c hc
      by_cases hcn : c = n
      · subst hcn; simp
      · have : c < n := by omega
        simp [hcn, hrow c this]
    · intro i j hij
      have : ¬ (i = r ∧ j = n) := by omega
      have h2 : ¬ (i = r ∧ j < n) := by omega
      simp only [this, if_false]
      exact hrest i j h2

theorem prefix_sum_succ {α : Type} (assign_pixel : α → Nat) (img : Grid α) (r c : Nat) :
    prefix_sum assign_pixel img (r + 1) c
      = prefix_sum assign_pixel img r c + row_sum assign_pixel img r c := rfl

theorem prefix_sum_zero {α : Type} (assign_pixel : α → Nat) (img : Grid α) (c : Nat) :
    prefix_sum assign_pixel img 0 c = 0 := rfl

theorem rows_loop {α : Type} (assign_pixel : α → Nat) (img : Grid α) (t1 : array2d)
    (hnr : t1.nr = img.nr) (hnc : t1.nc = img.nc)
    (hfirst : ∀ c, c < img.nc → t1.cell 0 c = prefix_sum assign_pixel img 1 (c + 1) % ULONG_SIZE)
    (k : Nat) (hk : k + 1 ≤ img.nr) :
    ∃ t, (List.range' 1 k).foldlM (load_row assign_pixel img) t1 = Except.ok t
      ∧ t.nr = img.nr ∧ t.nc = img.nc
      ∧ (∀ i j, i ≤ k → j < img.nc →
          t.cell i j = prefix_sum assign_pixel img (i + 1) (j + 1) % ULONG_SIZE) := by
  induction k with
  | zero =>
    refine ⟨t1, ?_, hnr, hnc, ?_⟩
    · simp [pure, Except.pure]
    · intro i j hi hj
      have : i = 0 := by omega
      subst this
      exact hfirst j hj
  | succ k ih =>
    obtain ⟨t, hrun, htr, htc, hcells⟩ := ih (by omega)
    obtain ⟨t', hrow, htr', htc', hnew, hold⟩ :=
      row_loop assign_pixel img t (1 + k) (by omega) (by omega) htr htc img.nc (le_refl _)
    refine ⟨t', ?_, by omega, by omega, ?_⟩
    · rw [foldlM_range'_succ, hrun]
      simp [load_row, hrow, bind, Except.bind, pure, Except.pure]
    · intro i j hi hj
      by_cases hik : i = 1 + k
      · subst hik
        rw [hnew j hj]
        have h1 : 1 + k - 1 = k := by omega
        rw [h1, hcells k j (le_refl _) hj, uadd_mod_mod, prefix_sum_succ _ _ (1 + k)]
        have h2 : 1 + k = k + 1 := by omega
        rw [h2, Nat.add_comm]
      · rw [hold i j (by omega)]
        exact hcells i j (by omega) hj

/-! ## What `load` computes -/

theorem set_size_nr (junk : Nat → Nat → Nat) (a : array2d) (nr nc : Nat) :
    (a.set_size junk nr nc).nr = nr := by
  unfold array2d.set_size
  split
  · next h => exact h.1
  · rfl

theorem set_size_nc (junk : Nat → Nat → Nat) (a : array2d) (nr nc : Nat) :
    (a.set_size junk nr nc).nc = nc := by
  unfold array2d.set_size
  split
  · next h => exact h.2
  · rfl

/-- On a grid with at least one row, `load` completes; the table gets the
dimensions of the grid and the entry at `(r, c)` is the sum of the pixel scalars
over the rows `[0, r]` and the columns `[0, c]`, reduced modulo `2^64`. -/
theorem load_table {α : Type} (assign_pixel : α → Nat) (junk : Nat → Nat → Nat)
    (self : integral_image) (img : Grid α) (h0 : 0 < img.nr) :
    ∃ res, self.load assign_pixel junk img = Except.ok res
      ∧ res.int_img.nr = img.nr ∧ res.int_img.nc = img.nc
      ∧ (∀ r c, r < img.nr → c < img.nc →
          res.int_img.cell r c = prefix_sum assign_pixel img (r + 1) (c + 1) % ULONG_SIZE) := by
  obtain ⟨t1, hrun1, hnr1, hnc1, hrow1, _⟩ :=
    first_row_loop assign_pixel img (self.int_img.set_size junk img.nr img.nc) h0
      (by rw [set_size_nr]; exact h0) (set_size_nc _ _ _ _) img.nc (le_refl _)
  rw [set_size_nr] at hnr1
  rw [set_size_nc] at hnc1
  obtain ⟨t2, hrun2, hnr2, hnc2, hcells⟩ :=
    rows_loop assign_pixel img t1 hnr1 hnc1
      (fun c hc => by
        rw [hrow1 c hc, prefix_sum_succ, prefix_sum_zero, Nat.zero_add])
      (img.nr - 1) (by omega)
  refine ⟨⟨t2⟩, ?_, hnr2, hnc2, fun r c hr hc => hcells r c (by omega) hc⟩
  simp [integral_image.load, hrun1, hrun2, bind, Except.bind, pure, Except.pure]

/-- On a grid without columns `load` completes, whatever the number of rows. -/
theorem load_no_columns {α : Type} (assign_pixel : α → Nat) (junk : Nat → Nat → Nat)
    (self : integral_image) (img : Grid α) (hc : img.nc = 0) :
    ∃ res, self.load assign_pixel junk img = Except.ok res
      ∧ res.int_img.nr = img.nr ∧ res.int_img.nc = img.nc := by
  have hrows : ∀ (k : Nat) (t : array2d),
      (List.range' 1 k).foldlM (load_row assign_pixel img) t = Except.ok t := by
    intro k
    induction k with
    | zero => intro t; simp [pure, Except.pure]
    | succ k ih =>
      intro t
      rw [foldlM_range'_succ, ih t]
      simp [load_row, hc, bind, Except.bind, pure, Except.pure]
  refine ⟨⟨self.int_img.set_size junk img.nr img.nc⟩, ?_, set_size_nr _ _ _ _,
    set_size_nc _ _ _ _⟩
  simp [integral_image.load, hc, hrows, bind, Except.bind, pure, Except.pure]

/-- On a grid with no row and at least one column, the loop over the first row
reads `img[0][0]`, which does not exist. -/
theorem load_no_rows {α : Type} (assign_pixel : α → Nat) (junk : Nat → Nat → Nat)
    (self : integral_image) (img : Grid α) (hr : img.nr = 0) (hc : 0 < img.nc) :
    self.load assign_pixel junk img = Except.error Fault.outOfRange := by
  obtain ⟨n, hn⟩ : ∃ n, img.nc = n + 1 := ⟨img.nc - 1, by omega⟩
  simp [integral_image.load, hn, List.range_succ_eq_map, load_first_row_step, Grid.read, hr,
    bind, Except.bind, throw, throwThe, MonadExceptOf.throw]

/-! ## Sums -/

theorem sum_below_add (f g : Nat → Nat) (n : Nat) :
    sum_below (fun k => f k + g k) n = sum_below f n + sum_below g n := by
  induction n with
  | zero => rfl
  | succ n ih => simp only [sum_below, ih]; omega

theorem sum_below_zero (n : Nat) : sum_below (fun _ => 0) n = 0 := by
  induction n with
  | zero => rfl
  | succ n ih => simp only [sum_below, ih]

theorem sum_below_congr (f g : Nat → Nat) (n : Nat) (h : ∀ k, k < n → f k = g k) :
    sum_below f n = sum_below g n := by
  induction n with
  | zero => rfl
  | succ n ih =>
    simp only [sum_below]
    rw [ih (fun k hk => h k (by omega)), h n (by omega)]

theorem sum_below_shift (f : Nat → Nat) (a n : Nat) :
    sum_below f a + sum_below (fun k => f (a + k)) n = sum_below f (a + n) := by
  induction n with
  | zero => rfl
  | succ n ih =>
    have : a + (n + 1) = (a + n) + 1 := by omega
    rw [this]
    simp only [sum_below]
    omega

/-- A sum over `[lo, hi]` is a difference of two sums from zero. -/
theorem sum_range_eq (f : Nat → Nat) (lo hi : Int) (h0 : 0 ≤ lo) (h1 : lo ≤ hi + 1) :
    sum_below f lo.toNat + sum_range f lo hi = sum_below f (hi + 1).toNat := by
  unfold sum_range
  have hfun : (fun k : Nat => f (lo + (k : Int)).toNat) = fun k => f (lo.toNat + k) := by
    funext k
    congr 1
    omega
  rw [hfun, sum_below_shift]
  congr 1
  omega

theorem sum_range_empty (f : Nat → Nat) (lo hi : Int) (h : hi < lo) : sum_range f lo hi = 0 := by
  unfold sum_range
  have : (hi + 1 - lo).toNat = 0 := by omega
  rw [this]
  rfl

theorem prefix_sum_col_zero {α : Type} (assign_pixel : α → Nat) (img : Grid α) (r : Nat) :
    prefix_sum assign_pixel img r 0 = 0 := by
  unfold prefix_sum row_sum
  exact sum_below_zero r

/-- Inclusion and exclusion: the brute-force sum over a rectangle with
non-negative corners, in terms of the sums from the origin. -/
theorem brute_sum_four_terms {α : Type} (assign_pixel : α → Nat) (img : Grid α) (rect : rectangle)
    (hl : 0 ≤ rect.left) (ht : 0 ≤ rect.top) (hlr : rect.left ≤ rect.right + 1)
    (htb : rect.top ≤ rect.bottom + 1) :
    brute_sum assign_pixel img rect
        + prefix_sum assign_pixel img (rect.bottom + 1).toNat rect.left.toNat
        + prefix_sum assign_pixel img rect.top.toNat (rect.right + 1).toNat
      = prefix_sum assign_pixel img (rect.bottom + 1).toNat (rect.right + 1).toNat
        + prefix_sum assign_pixel img rect.top.toNat rect.left.toNat := by
  have hstrip : ∀ n : Nat,
      prefix_sum assign_pixel img n rect.left.toNat
        + sum_below (fun r => sum_range (fun c => assign_pixel (img.pix r c))
            rect.left rect.right) n
        = prefix_sum assign_pixel img n (rect.right + 1).toNat := by
    intro n
    unfold prefix_sum
    rw [← sum_below_add]
    apply sum_below_congr
    intro k _
    exact sum_range_eq (fun c => assign_pixel (img.pix k c)) rect.left rect.right hl hlr
  have hrows := sum_range_eq
    (fun r => sum_range (fun c => assign_pixel (img.pix r c)) rect.left rect.right)
    rect.top rect.bottom ht htb
  have h1 := hstrip rect.top.toNat
  have h2 := hstrip (rect.bottom + 1).toNat
  unfold brute_sum
  omega

/-! ## Rectangles -/

theorem is_empty_iff (a : rectangle) :
    a.is_empty = true ↔ (a.bottom < a.top ∨ a.right < a.left) := by
  simp [rectangle.is_empty]

/-- What the containment test of rectangles decides. -/
theorem contains_iff (a rect : rectangle) :
    a.contains rect = true ↔
      (if a.bottom < a.top ∨ a.right < a.left then rect = a
       else (rect.bottom < rect.top ∨ rect.right < rect.left)
          ∨ (a.left ≤ rect.left ∧ a.top ≤ rect.top ∧ rect.right ≤ a.right
              ∧ rect.bottom ≤ a.bottom)) := by
  obtain ⟨al, at_, ar, ab⟩ := a
  obtain ⟨l, t, r, b⟩ := rect
  simp only [rectangle.contains, rectangle.add, rectangle.is_empty, decide_eq_true_eq,
    rectangle.mk.injEq, gt_iff_lt]
  by_cases ha : ab < at_ ∨ ar < al
  · simp only [ha, if_true, decide_True, rectangle.mk.injEq]
  · simp only [ha, if_false, decide_False]
    by_cases hr : b < t ∨ r < l
    · simp [hr]
    · simp only [hr, if_false, decide_False, false_or, rectangle.mk.injEq]
      constructor
      · rintro ⟨h1, h2, h3, h4⟩
        omega
      · intro h
        omega

/-! ## Evaluation of `get_sum_of_area` -/

theorem read_long_ok (a : array2d) (r c : Int) (hr0 : 0 ≤ r) (hr : r < (a.nr : Int))
    (hc0 : 0 ≤ c) (hc : c < (a.nc : Int)) :
    a.read_long r c = Except.ok (a.cell r.toNat c.toNat) := by
  have h1 : r.toNat < a.nr ∧ c.toNat < a.nc := ⟨by omega, by omega⟩
  simp [array2d.read_long, array2d.read, hr0, hc0, h1, pure, Except.pure]

theorem padded_of_nonneg (a : array2d) (r c : Int) (hr : 0 ≤ r) (hc : 0 ≤ c) :
    a.padded r c = a.cell r.toNat c.toNat := by
  have : ¬ (r < 0 ∨ c < 0) := by omega
  simp [array2d.padded, this]

theorem padded_row_neg (a : array2d) (r c : Int) (hr : r < 0) : a.padded r c = 0 := by
  simp [array2d.padded, hr]

theorem padded_col_neg (a : array2d) (r c : Int) (hc : c < 0) : a.padded r c = 0 := by
  simp [array2d.padded, hc]

theorem contains_of_inside (img : integral_image) (rect : rectangle)
    (hl : 0 ≤ rect.left) (ht : 0 ≤ rect.top) (h0r : 0 ≤ rect.right) (h0b : 0 ≤ rect.bottom)
    (hr : rect.right < img.nc) (hb : rect.bottom < img.nr) :
    (get_rect img).contains rect = true := by
  rw [contains_iff]
  have h1 : ¬ ((get_rect img).bottom < (get_rect img).top
      ∨ (get_rect img).right < (get_rect img).left) := by
    simp only [get_rect]; omega
  rw [if_neg h1]
  right
  simp only [get_rect]
  omega

/-- On a rectangle whose corners `(left, top)` and `(right, bottom)` both lie
inside the full extent (such a rectangle is non-empty, or lacks exactly one
column or one row), `get_sum_of_area` reads only existing entries and returns
the four-term expression over the table extended by zero. -/
theorem get_sum_of_area_padded (self : integral_image) (rect : rectangle)
    (hl : 0 ≤ rect.left) (ht : 0 ≤ rect.top) (hlr : rect.left ≤ rect.right + 1)
    (htb : rect.top ≤ rect.bottom + 1) (h0r : 0 ≤ rect.right) (h0b : 0 ≤ rect.bottom)
    (hr : rect.right < self.nc) (hb : rect.bottom < self.nr) :
    self.get_sum_of_area rect = Except.ok (to_long (uadd (usub (usub
        (self.int_img.padded rect.bottom rect.right)
        (self.int_img.padded rect.bottom (rect.left - 1)))
        (self.int_img.padded (rect.top - 1) rect.right))
        (self.int_img.padded (rect.top - 1) (rect.left - 1)))) := by
  have hcont := contains_of_inside self rect hl ht h0r h0b hr hb
  simp only [integral_image.nc, integral_image.nr] at hr hb
  have hbr := read_long_ok self.int_img rect.bottom rect.right (by omega) hb (by omega) hr
  have pbr := padded_of_nonneg self.int_img rect.bottom rect.right (by omega) (by omega)
  by_cases h1 : rect.left - 1 ≥ 0
  · have hbl := read_long_ok self.int_img rect.bottom (rect.left - 1) (by omega) hb h1
      (by omega)
    have pbl := padded_of_nonneg self.int_img rect.bottom (rect.left - 1) (by omega) h1
    by_cases h2 : rect.top - 1 ≥ 0
    · have htl := read_long_ok self.int_img (rect.top - 1) (rect.left - 1) h2 (by omega) h1
        (by omega)
      have htr := read_long_ok self.int_img (rect.top - 1) rect.right h2 (by omega) (by omega) hr
      have ptl := padded_of_nonneg self.int_img (rect.top - 1) (rect.left - 1) h2 h1
      have ptr := padded_of_nonneg self.int_img (rect.top - 1) rect.right h2 (by omega)
      simp [integral_image.get_sum_of_area, hcont, hbr, hbl, htl, htr, pbr, pbl, ptl, ptr, h1,
        h2, bind, Except.bind, pure, Except.pure]
    · have ptl := padded_row_neg self.int_img (rect.top - 1) (rect.left - 1) (by omega)
      have ptr := padded_row_neg self.int_img (rect.top - 1) rect.right (by omega)
      simp [integral_image.get_sum_of_area, hcont, hbr, hbl, pbr, pbl, ptl, ptr, h1, h2,
        bind, Except.bind, pure, Except.pure]
  · have pbl := padded_col_neg self.int_img rect.bottom (rect.left - 1) (by omega)
    have ptl := padded_col_neg self.int_img (rect.top - 1) (rect.left - 1) (by omega)
    by_cases h2 : rect.top - 1 ≥ 0
    · have htr := read_long_ok self.int_img (rect.top - 1) rect.right h2 (by omega) (by omega) hr
      have ptr := padded_of_nonneg self.int_img (rect.top - 1) rect.right h2 (by omega)
      simp [integral_image.get_sum_of_area, hcont, hbr, htr, pbr, pbl, ptl, ptr, h1, h2,
        bind, Except.bind, pure, Except.pure]
    · have ptr := padded_row_neg self.int_img (rect.top - 1) rect.right (by omega)
      simp [integral_image.get_sum_of_area, hcont, hbr, pbr, pbl, ptl, ptr, h1, h2,
        bind, Except.bind, pure, Except.pure]

/-! ## Wrapping arithmetic of the four-term expression -/

theorem four_term_mod (A B C D S : Nat) (h : S + B + C = A + D) :
    uadd (usub (usub (A % ULONG_SIZE) (B % ULONG_SIZE)) (C % ULONG_SIZE)) (D % ULONG_SIZE)
      = S % ULONG_SIZE := by
  have hcast : ((uadd (usub (usub (A % ULONG_SIZE) (B % ULONG_SIZE)) (C % ULONG_SIZE))
      (D % ULONG_SIZE) : Nat) : Int) = ((S % ULONG_SIZE : Nat) : Int) := by
    simp only [uadd, usub, wrap_cast, Int.natCast_mod]
    simp only [ULONG_SIZE]
    push_cast
    omega
  exact_mod_cast hcast

theorem to_long_of_lt (s : Nat) (h : s < LONG_LIMIT) : to_long (s % ULONG_SIZE) = (s : Int) := by
  have h1 : s % ULONG_SIZE = s := Nat.mod_eq_of_lt (by simp only [LONG_LIMIT, ULONG_SIZE] at *; omega)
  simp [to_long, h1, h]

/-! ## Rectangle sums on a loaded image -/

theorem padded_eq_sums {α : Type} (assign_pixel : α → Nat) (img : Grid α) (t : array2d)
    (hnr : t.nr = img.nr) (hnc : t.nc = img.nc)
    (hcells : ∀ r c, r < img.nr → c < img.nc →
      t.cell r c = prefix_sum assign_pixel img (r + 1) (c + 1) % ULONG_SIZE)
    (i j : Int) (hi : -1 ≤ i) (hi2 : i < (t.nr : Int)) (hj : -1 ≤ j) (hj2 : j < (t.nc : Int)) :
    t.padded i j = prefix_sum assign_pixel img (i + 1).toNat (j + 1).toNat % ULONG_SIZE := by
  by_cases h1 : i < 0
  · have : (i + 1).toNat = 0 := by omega
    rw [padded_row_neg _ _ _ h1, this, prefix_sum_zero]
    rfl
  · by_cases h2 : j < 0
    · have : (j + 1).toNat = 0 := by omega
      rw [padded_col_neg _ _ _ h2, this, prefix_sum_col_zero]
      rfl
    · rw [padded_of_nonneg _ _ _ (by omega) (by omega),
        hcells i.toNat j.toNat (by omega) (by omega)]
      have e1 : (i + 1).toNat = i.toNat + 1 := by omega
      have e2 : (j + 1).toNat = j.toNat + 1 := by omega
      rw [e1, e2]

/-- On a table that holds the sums from the origin modulo `2^64`,
`get_sum_of_area` returns the brute-force sum modulo `2^64`, read as a `long`. -/
theorem get_sum_of_area_mod {α : Type} (assign_pixel : α → Nat) (img : Grid α)
    (self : integral_image) (hnr : self.int_img.nr = img.nr) (hnc : self.int_img.nc = img.nc)
    (hcells : ∀ r c, r < img.nr → c < img.nc →
      self.int_img.cell r c = prefix_sum assign_pixel img (r + 1) (c + 1) % ULONG_SIZE)
    (rect : rectangle) (hl : 0 ≤ rect.left) (ht : 0 ≤ rect.top)
    (hlr : rect.left ≤ rect.right + 1) (htb : rect.top ≤ rect.bottom + 1)
    (h0r : 0 ≤ rect.right) (h0b : 0 ≤ rect.bottom)
    (hr : rect.right < self.nc) (hb : rect.bottom < self.nr) :
    self.get_sum_of_area rect
      = Except.ok (to_long (brute_sum assign_pixel img rect % ULONG_SIZE)) := by
  rw [get_sum_of_area_padded self rect hl ht hlr htb h0r h0b hr hb]
  simp only [integral_image.nc, integral_image.nr] at hr hb
  have pp := padded_eq_sums assign_pixel img self.int_img hnr hnc hcells
  rw [pp rect.bottom rect.right (by omega) hb (by omega) hr,
    pp rect.bottom (rect.left - 1) (by omega) hb (by omega) (by omega),
    pp (rect.top - 1) rect.right (by omega) (by omega) (by omega) hr,
    pp (rect.top - 1) (rect.left - 1) (by omega) (by omega) (by omega) (by omega)]
  have e1 : (rect.left - 1 + 1) = rect.left := by omega
  have e2 : (rect.top - 1 + 1) = rect.top := by omega
  rw [e1, e2]
  rw [four_term_mod _ _ _ _ (brute_sum assign_pixel img rect)]
  have := brute_sum_four_terms assign_pixel img rect hl ht hlr htb
  omega

theorem brute_sum_origin {α : Type} (assign_pixel : α → Nat) (img : Grid α) (r c : Nat) :
    brute_sum assign_pixel img ⟨0, 0, (c : Int), (r : Int)⟩
      = prefix_sum assign_pixel img (r + 1) (c + 1) := by
  have h := brute_sum_four_terms assign_pixel img ⟨0, 0, (c : Int), (r : Int)⟩ (le_refl _)
    (le_refl _) (by simp only; omega) (by simp only; omega)
  simp only [Int.toNat_zero, prefix_sum_zero, prefix_sum_col_zero] at h
  have e1 : ((r : Int) + 1).toNat = r + 1 := by omega
  have e2 : ((c : Int) + 1).toNat = c + 1 := by omega
  rw [e1, e2] at h
  omega

/-! ## C2: the prefix-sum invariant -/

/-- C2. Prefix-sum invariant: for every source grid and every coordinate
`(r, c)` with `r < rows` and `c < cols`, `load` completes and the table entry at
`(r, c)` is the brute-force sum of the pixel scalars over the rows `[0, r]` and
the columns `[0, c]`, provided that sum does not overflow the unsigned 64-bit
accumulator. -/
theorem load_prefix_sum_invariant {α : Type} (assign_pixel : α → Nat)
    (junk : Nat → Nat → Nat) (self : integral_image) (img : Grid α) (r c : Nat)
    (hr : r < img.nr) (hc : c < img.nc)
    (hacc : brute_sum assign_pixel img ⟨0, 0, (c : Int), (r : Int)⟩ < ULONG_SIZE) :
    ∃ res, self.load assign_pixel junk img = Except.ok res
      ∧ res.int_img.read r c
          = Except.ok (brute_sum assign_pixel img ⟨0, 0, (c : Int), (r : Int)⟩) := by
  obtain ⟨res, hload, hnr, hnc, hcells⟩ := load_table assign_pixel junk self img (by omega)
  refine ⟨res, hload, ?_⟩
  have hin : r < res.int_img.nr ∧ c < res.int_img.nc := ⟨by omega, by omega⟩
  rw [brute_sum_origin] at hacc ⊢
  simp [array2d.read, hin, hcells r c hr hc, Nat.mod_eq_of_lt hacc, pure, Except.pure]

/-- C2, witness: the 3x3 grid of ones yields the table `[[1,2,3],[2,4,6],[3,6,9]]`;
the entry at row 1, column 2 is obtained from the invariant. -/
theorem load_prefix_sum_invariant_witness :
    (∃ res, integral_image.empty.load id (fun _ _ => 0) (Grid.const 3 3 1) = Except.ok res
      ∧ res.int_img.read 1 2 = Except.ok 6)
    ∧ (integral_image.empty.load id (fun _ _ => 0) (Grid.const 3 3 1)).map
        (fun res => (List.range 3).map fun r => (List.range 3).map fun c => res.int_img.cell r c)
      = Except.ok [[1, 2, 3], [2, 4, 6], [3, 6, 9]] :=
  ⟨load_prefix_sum_invariant id (fun _ _ => 0) integral_image.empty (Grid.const 3 3 1) 1 2
    (by decide) (by decide) (by decide), by decide⟩

/-! ## C1: rectangle sums -/

/-- C1. Rectangle-sum correctness: on every source grid with at least one row
and one column `load` completes, and on the image it produces
`get_sum_of_area` returns, for every non-empty rectangle contained in the full
extent `(0, 0, cols-1, rows-1)`, the brute-force sum of the pixel scalars over
the rows `[top, bottom]` and the columns `[left, right]`, provided the sum does
not overflow the 64-bit `long` result.  The rectangle may touch row 0, column 0,
both or neither. -/
theorem get_sum_of_area_correct {α : Type} (assign_pixel : α → Nat)
    (junk : Nat → Nat → Nat) (self : integral_image) (img : Grid α)
    (hr : 0 < img.nr) (hc : 0 < img.nc) :
    ∃ res, self.load assign_pixel junk img = Except.ok res
      ∧ get_rect res = ⟨0, 0, (img.nc : Int) - 1, (img.nr : Int) - 1⟩
      ∧ ∀ rect : rectangle, rect.left ≤ rect.right → rect.top ≤ rect.bottom →
          (get_rect res).contains rect = true →
          brute_sum assign_pixel img rect < LONG_LIMIT →
          res.get_sum_of_area rect = Except.ok (brute_sum assign_pixel img rect : Int) := by
  obtain ⟨res, hload, hnr, hnc, hcells⟩ := load_table assign_pixel junk self img hr
  have hrect : get_rect res = ⟨0, 0, (img.nc : Int) - 1, (img.nr : Int) - 1⟩ := by
    simp [get_rect, integral_image.nc, integral_image.nr, hnr, hnc]
  refine ⟨res, hload, hrect, ?_⟩
  intro rect hlr htb hcont hsum
  rw [contains_iff, hrect] at hcont
  have hne : ¬ ((img.nr : Int) - 1 < 0 ∨ (img.nc : Int) - 1 < 0) := by omega
  simp only [hne, if_false] at hcont
  have hin : 0 ≤ rect.left ∧ 0 ≤ rect.top ∧ rect.right ≤ (img.nc : Int) - 1
      ∧ rect.bottom ≤ (img.nr : Int) - 1 := by
    rcases hcont with h | h
    · omega
    · exact h
  rw [get_sum_of_area_mod assign_pixel img res hnr hnc hcells rect hin.1 hin.2.1 (by omega)
    (by omega) (by omega) (by omega)
    (by simp only [integral_image.nc, hnc]; omega)
    (by simp only [integral_image.nr, hnr]; omega)]
  rw [to_long_of_lt _ hsum]

/-- C1, witness: on the 3x3 grid of ones the full area gives 9, the bottom-right
cell 1 and the top row 3; a rectangle touching only row 0 and one touching only
column 0 give 4 each. -/
theorem get_sum_of_area_correct_witness :
    ∃ res, integral_image.empty.load id (fun _ _ => 0) (Grid.const 3 3 1) = Except.ok res
      ∧ res.get_sum_of_area ⟨0, 0, 2, 2⟩ = Except.ok 9
      ∧ res.get_sum_of_area ⟨2, 2, 2, 2⟩ = Except.ok 1
      ∧ res.get_sum_of_area ⟨0, 0, 2, 0⟩ = Except.ok 3
      ∧ res.get_sum_of_area ⟨1, 0, 2, 1⟩ = Except.ok 4
      ∧ res.get_sum_of_area ⟨0, 1, 1, 2⟩ = Except.ok 4 := by
  obtain ⟨res, hload, hrect, hsum⟩ := get_sum_of_area_correct id (fun _ _ => 0)
    integral_image.empty (Grid.const 3 3 1) (by decide) (by decide)
  refine ⟨res, hload, ?_, ?_, ?_, ?_, ?_⟩
  · exact hsum ⟨0, 0, 2, 2⟩ (by decide) (by decide) (by rw [hrect]; decide) (by decide)
  · exact hsum ⟨2, 2, 2, 2⟩ (by decide) (by decide) (by rw [hrect]; decide) (by decide)
  · exact hsum ⟨0, 0, 2, 0⟩ (by decide) (by decide) (by rw [hrect]; decide) (by decide)
  · exact hsum ⟨1, 0, 2, 1⟩ (by decide) (by decide) (by rw [hrect]; decide) (by decide)
  · exact hsum ⟨0, 1, 1, 2⟩ (by decide) (by decide) (by rw [hrect]; decide) (by decide)

/-! ## C5: the containment check of `get_sum_of_area` -/

theorem read_long_cases (a : array2d) (r c : Int) :
    (∃ v, a.read_long r c = Except.ok v) ∨ a.read_long r c = Except.error Fault.outOfRange := by
  unfold array2d.read_long array2d.read
  split
  · split
    · exact Or.inl ⟨_, rfl⟩
    · exact Or.inr rfl
  · exact Or.inr rfl

/-- A failed containment check is the only source of the fault `contract`. -/
theorem get_sum_of_area_of_not_contains (self : integral_image) (rect : rectangle)
    (h : (get_rect self).contains rect = false) :
    self.get_sum_of_area rect = Except.error Fault.contract := by
  simp [integral_image.get_sum_of_area, h, bind, Except.bind, throw, throwThe,
    MonadExceptOf.throw]

theorem get_sum_of_area_of_contains (self : integral_image) (rect : rectangle)
    (h : (get_rect self).contains rect = true) :
    (∃ v, self.get_sum_of_area rect = Except.ok v)
      ∨ self.get_sum_of_area rect = Except.error Fault.outOfRange := by
  unfold integral_image.get_sum_of_area
  simp only [h, Bool.true_eq_false, if_false]
  rcases read_long_cases self.int_img rect.bottom rect.right with ⟨v1, h1⟩ | h1 <;>
  rcases read_long_cases self.int_img (rect.top - 1) (rect.left - 1) with ⟨v2, h2⟩ | h2 <;>
  rcases read_long_cases self.int_img rect.bottom (rect.left - 1) with ⟨v3, h3⟩ | h3 <;>
  rcases read_long_cases self.int_img (rect.top - 1) rect.right with ⟨v4, h4⟩ | h4 <;>
  simp only [h1, h2, h3, h4, bind, Except.bind, pure, Except.pure] <;>
  first
    | (split_ifs <;> simp)
    | simp

/-- C5. Out-of-bounds rejection of rectangle queries: `get_sum_of_area(rect)`
fails its contract check if and only if `rect` is not contained in the full
extent `get_rect(*this)`.  On an image with at least one row and one column a
non-empty rectangle is rejected exactly when it leaves `(0, 0, cols-1, rows-1)`
on some side, in particular when its left is `-1`, its top is `-1`, its right is
`cols` or its bottom is `rows`; the full extent itself is accepted and a sum is
returned. -/
theorem get_sum_of_area_rejection (self : integral_image) (rect : rectangle) :
    (self.get_sum_of_area rect = Except.error Fault.contract
        ↔ (get_rect self).contains rect = false)
    ∧ (0 < self.nr → 0 < self.nc → rect.left ≤ rect.right → rect.top ≤ rect.bottom →
        (self.get_sum_of_area rect = Except.error Fault.contract
          ↔ (rect.left < 0 ∨ rect.top < 0 ∨ self.nc - 1 < rect.right
              ∨ self.nr - 1 < rect.bottom)))
    ∧ (0 < self.nr → 0 < self.nc → rect.left ≤ rect.right → rect.top ≤ rect.bottom →
        (rect.left = -1 ∨ rect.top = -1 ∨ rect.right = self.nc ∨ rect.bottom = self.nr) →
        self.get_sum_of_area rect = Except.error Fault.contract)
    ∧ (0 < self.nr → 0 < self.nc → ∃ v, self.get_sum_of_area (get_rect self) = Except.ok v) := by
  have hiff : self.get_sum_of_area rect = Except.error Fault.contract
      ↔ (get_rect self).contains rect = false := by
    constructor
    · intro h
      by_contra hc
      have hc2 : (get_rect self).contains rect = true := by
        cases hcc : (get_rect self).contains rect
        · exact absurd hcc hc
        · rfl
      rcases get_sum_of_area_of_contains self rect hc2 with ⟨v, hv⟩ | hv
      · rw [hv] at h; cases h
      · rw [hv] at h; cases h
    · exact get_sum_of_area_of_not_contains self rect
  have hgeo : 0 < self.nr → 0 < self.nc → rect.left ≤ rect.right → rect.top ≤ rect.bottom →
      (self.get_sum_of_area rect = Except.error Fault.contract
        ↔ (rect.left < 0 ∨ rect.top < 0 ∨ self.nc - 1 < rect.right
            ∨ self.nr - 1 < rect.bottom)) := by
    intro hnr hnc hlr htb
    rw [hiff, ← Bool.not_eq_true, contains_iff]
    have h1 : ¬ ((get_rect self).bottom < (get_rect self).top
        ∨ (get_rect self).right < (get_rect self).left) := by
      simp only [get_rect]; omega
    rw [if_neg h1]
    simp only [get_rect]
    omega
  refine ⟨hiff, hgeo, ?_, ?_⟩
  · intro hnr hnc hlr htb hside
    rw [hgeo hnr hnc hlr htb]
    omega
  · intro hnr hnc
    exact ⟨_, get_sum_of_area_padded self (get_rect self) (le_refl _) (le_refl _)
      (by simp only [get_rect]; omega) (by simp only [get_rect]; omega)
      (by simp only [get_rect]; omega) (by simp only [get_rect]; omega)
      (by simp only [get_rect]; omega) (by simp only [get_rect]; omega)⟩

/-- C5, witness: on a table of three rows and three columns the rectangle
`(-1, 0, 1, 1)` is rejected and the full extent `(0, 0, 2, 2)` is accepted. -/
theorem get_sum_of_area_rejection_witness :
    integral_image.get_sum_of_area ⟨⟨3, 3, fun _ _ => 1⟩⟩ ⟨-1, 0, 1, 1⟩
        = Except.error Fault.contract
    ∧ ∃ v, integral_image.get_sum_of_area ⟨⟨3, 3, fun _ _ => 1⟩⟩ ⟨0, 0, 2, 2⟩ = Except.ok v :=
  ⟨(get_sum_of_area_rejection ⟨⟨3, 3, fun _ _ => 1⟩⟩ ⟨-1, 0, 1, 1⟩).2.2.1
      (by decide) (by decide) (by decide) (by decide) (Or.inl rfl),
    (get_sum_of_area_rejection ⟨⟨3, 3, fun _ _ => 1⟩⟩ ⟨-1, 0, 1, 1⟩).2.2.2
      (by decide) (by decide)⟩

/-! ## C6: the containment check of `haar_x` and `haar_y` -/

theorem tdiv_two_bounds (w : Int) :
    (0 ≤ w → 2 * w.tdiv 2 ≤ w ∧ w ≤ 2 * w.tdiv 2 + 1)
      ∧ (w ≤ 0 → w ≤ 2 * w.tdiv 2 ∧ 2 * w.tdiv 2 - 1 ≤ w) := by
  constructor
  · intro h
    rw [Int.tdiv_eq_ediv h (by norm_num)]
    omega
  · intro h
    have h2 := Int.tdiv_eq_ediv (a := -w) (b := 2) (by omega) (by norm_num)
    rw [Int.neg_tdiv] at h2
    omega

/-- The four half rectangles pass the containment check of `get_sum_of_area`
whenever the centered square passes the check of `haar_x` and `haar_y`. -/
theorem haar_rects_contained (img : integral_image) (p : point) (width : Int)
    (h : (get_rect img).contains (centered_rect p width width) = true) :
    (get_rect img).contains (haar_x_right_rect p width) = true
      ∧ (get_rect img).contains (haar_x_left_rect p width) = true
      ∧ (get_rect img).contains (haar_y_bottom_rect p width) = true
      ∧ (get_rect img).contains (haar_y_top_rect p width) = true := by
  have hd := tdiv_two_bounds width
  simp only [contains_iff, centered_rect, haar_x_right_rect, haar_x_left_rect,
    haar_y_bottom_rect, haar_y_top_rect, get_rect, rectangle.mk.injEq, integral_image.nr,
    integral_image.nc] at h ⊢
  generalize width.tdiv 2 = d at h hd ⊢
  by_cases he : (img.int_img.nr : Int) - 1 < 0 ∨ (img.int_img.nc : Int) - 1 < 0
  · simp only [he, if_true] at h ⊢
    omega
  · simp only [he, if_false] at h ⊢
    omega

theorem long_sub_cases (a b : Int) :
    (∃ v, long_sub a b = Except.ok v) ∨ long_sub a b = Except.error Fault.overflow := by
  unfold long_sub
  split
  · exact Or.inl ⟨_, rfl⟩
  · exact Or.inr rfl

theorem haar_x_of_not_contains (img : integral_image) (p : point) (width : Int)
    (h : (get_rect img).contains (centered_rect p width width) = false) :
    haar_x img p width = Except.error Fault.contract := by
  simp [haar_x, h, bind, Except.bind, throw, throwThe, MonadExceptOf.throw]

theorem haar_y_of_not_contains (img : integral_image) (p : point) (width : Int)
    (h : (get_rect img).contains (centered_rect p width width) = false) :
    haar_y img p width = Except.error Fault.contract := by
  simp [haar_y, h, bind, Except.bind, throw, throwThe, MonadExceptOf.throw]

theorem haar_x_of_contains (img : integral_image) (p : point) (width : Int)
    (h : (get_rect img).contains (centered_rect p width width) = true) :
    haar_x img p width ≠ Except.error Fault.contract := by
  obtain ⟨hr, hl, _, _⟩ := haar_rects_contained img p width h
  unfold haar_x
  simp only [h, Bool.true_eq_false, if_false]
  rcases get_sum_of_area_of_contains img _ hr with ⟨a, ha⟩ | ha
  · rcases get_sum_of_area_of_contains img _ hl with ⟨b, hb⟩ | hb
    · simp only [ha, hb, bind, Except.bind, pure, Except.pure]
      rcases long_sub_cases a b with ⟨v, hv⟩ | hv <;> simp [hv]
    · simp [ha, hb, bind, Except.bind, pure, Except.pure]
  · simp [ha, bind, Except.bind, pure, Except.pure]

theorem haar_y_of_contains (img : integral_image) (p : point) (width : Int)
    (h : (get_rect img).contains (centered_rect p width width) = true) :
    haar_y img p width ≠ Except.error Fault.contract := by
  obtain ⟨_, _, hb, ht⟩ := haar_rects_contained img p width h
  unfold haar_y
  simp only [h, Bool.true_eq_false, if_false]
  rcases get_sum_of_area_of_contains img _ hb with ⟨a, ha⟩ | ha
  · rcases get_sum_of_area_of_contains img _ ht with ⟨b, hb2⟩ | hb2
    · simp only [ha, hb2, bind, Except.bind, pure, Except.pure]
      rcases long_sub_cases a b with ⟨v, hv⟩ | hv <;> simp [hv]
    · simp [ha, hb2, bind, Except.bind, pure, Except.pure]
  · simp [ha, bind, Except.bind, pure, Except.pure]

/-- C6. Out-of-bounds rejection of Haar queries: `haar_x(img, p, width)` and
`haar_y(img, p, width)` fail their contract check if and only if the square of
side `width` centered at `p` is not contained in the full extent; the outcome of
the check depends on the dimensions only, not on the table.  On an image with at
least one row and one column and for `width ≥ 1`, the square is rejected exactly
when it leaves `(0, 0, cols-1, rows-1)` on some side: a square one unit past a
side is rejected, a square touching the boundary passes the check. -/
theorem haar_rejection (img : integral_image) (p : point) (width : Int) :
    (haar_x img p width = Except.error Fault.contract
        ↔ (get_rect img).contains (centered_rect p width width) = false)
    ∧ (haar_y img p width = Except.error Fault.contract
        ↔ (get_rect img).contains (centered_rect p width width) = false)
    ∧ ((get_rect img).contains (centered_rect p width width) = false →
        ∀ table : Nat → Nat → Nat,
          haar_x ⟨⟨img.int_img.nr, img.int_img.nc, table⟩⟩ p width
              = Except.error Fault.contract
          ∧ haar_y ⟨⟨img.int_img.nr, img.int_img.nc, table⟩⟩ p width
              = Except.error Fault.contract)
    ∧ (0 < img.nr → 0 < img.nc → 1 ≤ width →
        ((get_rect img).contains (centered_rect p width width) = false
          ↔ (p.x - width.tdiv 2 < 0 ∨ p.y - width.tdiv 2 < 0
              ∨ img.nc - 1 < p.x - width.tdiv 2 + width - 1
              ∨ img.nr - 1 < p.y - width.tdiv 2 + width - 1)))
    ∧ (0 < img.nr → 0 < img.nc → 1 ≤ width →
        (p.x - width.tdiv 2 = -1 ∨ p.y - width.tdiv 2 = -1
          ∨ p.x - width.tdiv 2 + width - 1 = img.nc
          ∨ p.y - width.tdiv 2 + width - 1 = img.nr) →
        haar_x img p width = Except.error Fault.contract
          ∧ haar_y img p width = Except.error Fault.contract)
    ∧ (0 < img.nr → 0 < img.nc → 1 ≤ width →
        0 ≤ p.x - width.tdiv 2 → 0 ≤ p.y - width.tdiv 2 →
        p.x - width.tdiv 2 + width - 1 ≤ img.nc - 1 →
        p.y - width.tdiv 2 + width - 1 ≤ img.nr - 1 →
        haar_x img p width ≠ Except.error Fault.contract
          ∧ haar_y img p width ≠ Except.error Fault.contract) := by
  have to_true : ∀ b : Bool, ¬ b = false → b = true := by
    intro b hb; cases b
    · exact absurd rfl hb
    · rfl
  have hx : haar_x img p width = Except.error Fault.contract
      ↔ (get_rect img).contains (centered_rect p width width) = false :=
    ⟨fun h => by
      by_contra hc
      exact haar_x_of_contains img p width (to_true _ hc) h,
     haar_x_of_not_contains img p width⟩
  have hy : haar_y img p width = Except.error Fault.contract
      ↔ (get_rect img).contains (centered_rect p width width) = false :=
    ⟨fun h => by
      by_contra hc
      exact haar_y_of_contains img p width (to_true _ hc) h,
     haar_y_of_not_contains img p width⟩
  have hgeo : 0 < img.nr → 0 < img.nc → 1 ≤ width →
      ((get_rect img).contains (centered_rect p width width) = false
        ↔ (p.x - width.tdiv 2 < 0 ∨ p.y - width.tdiv 2 < 0
            ∨ img.nc - 1 < p.x - width.tdiv 2 + width - 1
            ∨ img.nr - 1 < p.y - width.tdiv 2 + width - 1)) := by
    intro hnr hnc hw
    rw [← Bool.not_eq_true, contains_iff]
    have h1 : ¬ ((get_rect img).bottom < (get_rect img).top
        ∨ (get_rect img).right < (get_rect img).left) := by
      simp only [get_rect]; omega
    rw [if_neg h1]
    simp only [get_rect, centered_rect]
    omega
  refine ⟨hx, hy, ?_, hgeo, ?_, ?_⟩
  · intro h table
    exact ⟨haar_x_of_not_contains _ p width h, haar_y_of_not_contains _ p width h⟩
  · intro hnr hnc hw hside
    have hrej : (get_rect img).contains (centered_rect p width width) = false := by
      rw [hgeo hnr hnc hw]; omega
    exact ⟨hx.2 hrej, hy.2 hrej⟩
  · intro hnr hnc hw h1 h2 h3 h4
    have hacc : ¬ (get_rect img).contains (centered_rect p width width) = false := by
      rw [hgeo hnr hnc hw]; omega
    exact ⟨fun h => hacc (hx.1 h), fun h => hacc (hy.1 h)⟩

/-- C6, witness: on a table of three rows and three columns the square of side 4
around `(1, 1)` starts at column `-1` and is rejected by both functions; the
square of side 3 around `(1, 1)` is the full extent and passes both checks. -/
theorem haar_rejection_witness :
    (haar_x ⟨⟨3, 3, fun _ _ => 1⟩⟩ ⟨1, 1⟩ 4 = Except.error Fault.contract
      ∧ haar_y ⟨⟨3, 3, fun _ _ => 1⟩⟩ ⟨1, 1⟩ 4 = Except.error Fault.contract)
    ∧ (haar_x ⟨⟨3, 3, fun _ _ => 1⟩⟩ ⟨1, 1⟩ 3 ≠ Except.error Fault.contract
      ∧ haar_y ⟨⟨3, 3, fun _ _ => 1⟩⟩ ⟨1, 1⟩ 3 ≠ Except.error Fault.contract) :=
  ⟨(haar_rejection ⟨⟨3, 3, fun _ _ => 1⟩⟩ ⟨1, 1⟩ 4).2.2.2.2.1
      (by decide) (by decide) (by decide) (Or.inl (by decide)),
    (haar_rejection ⟨⟨3, 3, fun _ _ => 1⟩⟩ ⟨1, 1⟩ 3).2.2.2.2.2
      (by decide) (by decide) (by decide) (by decide) (by decide) (by decide) (by decide)⟩

/-! ## C7 and C8: `load` on grids without rows or columns -/

/-- Wherever `load` completes (the grid has a row, or it has no column), the
image reports the dimensions of the grid, and its full extent is
`(0, 0, cols-1, rows-1)`, which is empty exactly when the grid has no row or no
column. -/
theorem load_full_extent {α : Type} (assign_pixel : α → Nat) (junk : Nat → Nat → Nat)
    (self : integral_image) (img : Grid α) (h : 0 < img.nr ∨ img.nc = 0) :
    ∃ res, self.load assign_pixel junk img = Except.ok res
      ∧ res.nr = (img.nr : Int) ∧ res.nc = (img.nc : Int)
      ∧ get_rect res = ⟨0, 0, (img.nc : Int) - 1, (img.nr : Int) - 1⟩
      ∧ ((get_rect res).is_empty = true ↔ (img.nr = 0 ∨ img.nc = 0)) := by
  have hdims : ∃ res, self.load assign_pixel junk img = Except.ok res
      ∧ res.int_img.nr = img.nr ∧ res.int_img.nc = img.nc := by
    rcases h with h | h
    · obtain ⟨res, h1, h2, h3, _⟩ := load_table assign_pixel junk self img h
      exact ⟨res, h1, h2, h3⟩
    · exact load_no_columns assign_pixel junk self img h
  obtain ⟨res, hload, hnr, hnc⟩ := hdims
  refine ⟨res, hload, ?_, ?_, ?_, ?_⟩
  · simp [integral_image.nr, hnr]
  · simp [integral_image.nc, hnc]
  · simp [get_rect, integral_image.nr, integral_image.nc, hnr, hnc]
  · rw [is_empty_iff]
    simp only [get_rect, integral_image.nr, integral_image.nc, hnr, hnc]
    omega

/-- C7. `load` is not total on empty grids: on the grid with no row and one
column the loop over the first row reads `img[0][0]`, an element that does not
exist, so the run leaves the grid's bounds instead of completing. -/
theorem load_zero_rows_reads_outside :
    integral_image.empty.load id (fun _ _ => 0) (Grid.const 0 1 1)
      = Except.error Fault.outOfRange :=
  load_no_rows id (fun _ _ => 0) integral_image.empty (Grid.const 0 1 1) rfl (by decide)

/-- C8. On the grid with no row and one column `load` produces no image: the
run that loads the grid and then asks for `nr()`, `nc()` and `get_rect` ends in
the read of `img[0][0]`, so no state reports `nr() = 0`, `nc() = 1` and the full
extent `(0, 0, 0, -1)`. -/
theorem load_zero_rows_no_extent :
    (integral_image.empty.load id (fun _ _ => 0) (Grid.const 0 1 1)
        >>= fun res => pure (res.nr, res.nc, get_rect res))
      = Except.error Fault.outOfRange := by
  decide

/-! ## C9: the empty image -/

/-- C9. Empty-image edge case: `load` on a grid with no row and no column
completes; the full extent of the image is the degenerate rectangle
`(0, 0, -1, -1)`, and every rectangle with `left ≤ right` and `top ≤ bottom`
fails the containment check of `get_sum_of_area`. -/
theorem empty_image_rejects_queries {α : Type} (assign_pixel : α → Nat)
    (junk : Nat → Nat → Nat) (self : integral_image) (img : Grid α)
    (hr : img.nr = 0) (hc : img.nc = 0) :
    ∃ res, self.load assign_pixel junk img = Except.ok res
      ∧ get_rect res = ⟨0, 0, -1, -1⟩
      ∧ (get_rect res).is_empty = true
      ∧ ∀ rect : rectangle, rect.left ≤ rect.right → rect.top ≤ rect.bottom →
          (get_rect res).contains rect = false
            ∧ res.get_sum_of_area rect = Except.error Fault.contract := by
  obtain ⟨res, hload, hnr, hnc⟩ := load_no_columns assign_pixel junk self img hc
  have hrect : get_rect res = ⟨0, 0, -1, -1⟩ := by
    simp [get_rect, integral_image.nr, integral_image.nc, hnr, hnc, hr, hc]
  refine ⟨res, hload, hrect, by rw [hrect]; decide, ?_⟩
  intro rect hlr htb
  have hnot : (get_rect res).contains rect = false := by
    rw [← Bool.not_eq_true, contains_iff, hrect]
    have h1 : ((-1 : Int) < 0 ∨ (-1 : Int) < 0) := Or.inl (by decide)
    rw [if_pos h1]
    intro h
    rw [h] at hlr
    exact absurd hlr (by decide)
  exact ⟨hnot, get_sum_of_area_of_not_contains res rect hnot⟩

/-- C9, witness: after `load` on the grid without rows and columns the
one-pixel query `(0, 0, 0, 0)` fails the containment check. -/
theorem empty_image_rejects_queries_witness :
    ∃ res, integral_image.empty.load id (fun _ _ => 0) (Grid.const 0 0 1) = Except.ok res
      ∧ get_rect res = ⟨0, 0, -1, -1⟩
      ∧ res.get_sum_of_area ⟨0, 0, 0, 0⟩ = Except.error Fault.contract := by
  obtain ⟨res, hload, hrect, _, hrej⟩ := empty_image_rejects_queries id (fun _ _ => 0)
    integral_image.empty (Grid.const 0 0 1) rfl rfl
  exact ⟨res, hload, hrect, (hrej ⟨0, 0, 0, 0⟩ (by decide) (by decide)).2⟩

/-! ## C10: loading again -/

/-- C10. Reload replaces: for grids `g1` and `g2` of possibly different
dimensions, each with at least one row (in particular for grids with at least
one row and one column), `load(g1)` followed by `load(g2)` leaves the same state
as `load(g2)` alone on a freshly constructed image: the same dimensions and the
same entry at every position of the table, each being the sum over `g2` only.
This holds whatever the contents of newly allocated storage. -/
theorem reload_replaces {α : Type} (assign_pixel : α → Nat)
    (junk1 junk2 junk3 : Nat → Nat → Nat) (g1 g2 : Grid α)
    (h1r : 0 < g1.nr) (h2r : 0 < g2.nr) :
    ∃ first both alone,
      integral_image.empty.load assign_pixel junk1 g1 = Except.ok first
      ∧ first.load assign_pixel junk2 g2 = Except.ok both
      ∧ integral_image.empty.load assign_pixel junk3 g2 = Except.ok alone
      ∧ both.nr = alone.nr ∧ both.nc = alone.nc
      ∧ both.nr = (g2.nr : Int) ∧ both.nc = (g2.nc : Int)
      ∧ (∀ r c, r < g2.nr → c < g2.nc →
          both.int_img.cell r c = alone.int_img.cell r c
            ∧ both.int_img.cell r c
                = prefix_sum assign_pixel g2 (r + 1) (c + 1) % ULONG_SIZE)
      ∧ (∀ r c : Int, both.int_img.read_long r c = alone.int_img.read_long r c) := by
  obtain ⟨first, hf, _, _, _⟩ := load_table assign_pixel junk1 integral_image.empty g1 h1r
  obtain ⟨both, hb, hbr, hbc, hbcells⟩ := load_table assign_pixel junk2 first g2 h2r
  obtain ⟨alone, ha, har, hac, hacells⟩ :=
    load_table assign_pixel junk3 integral_image.empty g2 h2r
  refine ⟨first, both, alone, hf, hb, ha, ?_, ?_, ?_, ?_, ?_, ?_⟩
  · simp [integral_image.nr, hbr, har]
  · simp [integral_image.nc, hbc, hac]
  · simp [integral_image.nr, hbr]
  · simp [integral_image.nc, hbc]
  · intro r c hr hc
    exact ⟨by rw [hbcells r c hr hc, hacells r c hr hc], hbcells r c hr hc⟩
  · intro r c
    unfold array2d.read_long array2d.read
    rw [hbr, hbc, har, hac]
    by_cases h0 : 0 ≤ r ∧ 0 ≤ c
    · by_cases hin : r.toNat < g2.nr ∧ c.toNat < g2.nc
      · simp only [h0, hin, and_self, if_true]
        rw [hbcells _ _ hin.1 hin.2, hacells _ _ hin.1 hin.2]
      · simp only [h0, hin, and_self, if_true, if_false]
    · simp only [h0, if_false]

/-- C10, witness: a 2x2 grid of fives followed by the 3x3 grid of ones; the
reloaded table has three rows and three columns and holds 9 at the bottom
right, as after loading the grid of ones alone. -/
theorem reload_replaces_witness :
    ∃ first both alone,
      integral_image.empty.load id (fun _ _ => 7) (Grid.const 2 2 5) = Except.ok first
      ∧ first.load id (fun _ _ => 8) (Grid.const 3 3 1) = Except.ok both
      ∧ integral_image.empty.load id (fun _ _ => 9) (Grid.const 3 3 1) = Except.ok alone
      ∧ both.nr = 3 ∧ both.nc = 3
      ∧ both.int_img.cell 2 2 = alone.int_img.cell 2 2
      ∧ both.int_img.cell 2 2 = 9 := by
  obtain ⟨first, both, alone, hf, hb, ha, _, _, hnr, hnc, hcells, _⟩ :=
    reload_replaces id (fun _ _ => 7) (fun _ _ => 8) (fun _ _ => 9) (Grid.const 2 2 5)
      (Grid.const 3 3 1) (by decide) (by decide)
  exact ⟨first, both, alone, hf, hb, ha, hnr, hnc, (hcells 2 2 (by decide) (by decide)).1,
    (hcells 2 2 (by decide) (by decide)).2⟩

/-! ## C3 and C4: the values of `haar_x` and `haar_y` -/

theorem long_sub_of_small (a b : Nat) (ha : a < LONG_LIMIT) (hb : b < LONG_LIMIT) :
    long_sub (a : Int) (b : Int) = Except.ok ((a : Int) - (b : Int)) := by
  have h : -(LONG_LIMIT : Int) ≤ (a : Int) - (b : Int)
      ∧ (a : Int) - (b : Int) < (LONG_LIMIT : Int) := by omega
  simp [long_sub, h, pure, Except.pure]

/-- Away from column 0 `haar_x` returns the difference of the brute-force sums
over the right and the left rectangle: for `width ≥ 1`, a centered square inside
the full extent, a center with `1 ≤ p.x` and sums below `2^63`. -/
theorem haar_x_value {α : Type} (assign_pixel : α → Nat) (junk : Nat → Nat → Nat)
    (self : integral_image) (img : Grid α) (p : point) (width : Int)
    (hr : 0 < img.nr) (hc : 0 < img.nc) (hw : 1 ≤ width) (hx : 1 ≤ p.x) :
    ∃ res, self.load assign_pixel junk img = Except.ok res
      ∧ ((get_rect res).contains (centered_rect p width width) = true →
          brute_sum assign_pixel img ⟨p.x, p.y - width.tdiv 2,
            p.x - width.tdiv 2 + width - 1, p.y - width.tdiv 2 + width - 1⟩ < LONG_LIMIT →
          brute_sum assign_pixel img ⟨p.x - width.tdiv 2, p.y - width.tdiv 2,
            p.x - 1, p.y - width.tdiv 2 + width - 1⟩ < LONG_LIMIT →
          haar_x res p width = Except.ok
            ((brute_sum assign_pixel img ⟨p.x, p.y - width.tdiv 2,
                p.x - width.tdiv 2 + width - 1, p.y - width.tdiv 2 + width - 1⟩ : Int)
              - (brute_sum assign_pixel img ⟨p.x - width.tdiv 2, p.y - width.tdiv 2,
                  p.x - 1, p.y - width.tdiv 2 + width - 1⟩ : Int))) := by
  obtain ⟨res, hload, hnr, hnc, hcells⟩ := load_table assign_pixel junk self img hr
  refine ⟨res, hload, ?_⟩
  intro hcont hright hleft
  have hd := (tdiv_two_bounds width).1 (by omega)
  have hin := hcont
  rw [contains_iff] at hin
  simp only [get_rect, centered_rect, integral_image.nr, integral_image.nc, hnr, hnc] at hin
  have hne : ¬ ((img.nr : Int) - 1 < 0 ∨ (img.nc : Int) - 1 < 0) := by omega
  rw [if_neg hne] at hin
  have hR := get_sum_of_area_mod assign_pixel img res hnr hnc hcells
    (haar_x_right_rect p width)
    (by simp only [haar_x_right_rect, haar_x_left_rect]; omega)
    (by simp only [haar_x_right_rect, haar_x_left_rect]; omega)
    (by simp only [haar_x_right_rect, haar_x_left_rect]; omega)
    (by simp only [haar_x_right_rect, haar_x_left_rect]; omega)
    (by simp only [haar_x_right_rect, haar_x_left_rect]; omega)
    (by simp only [haar_x_right_rect, haar_x_left_rect]; omega)
    (by simp only [haar_x_right_rect, haar_x_left_rect, integral_image.nc, hnc]; omega)
    (by simp only [haar_x_right_rect, haar_x_left_rect, integral_image.nr, hnr]; omega)
  have hL := get_sum_of_area_mod assign_pixel img res hnr hnc hcells
    (haar_x_left_rect p width)
    (by simp only [haar_x_left_rect]; omega)
    (by simp only [haar_x_left_rect]; omega)
    (by simp only [haar_x_left_rect]; omega)
    (by simp only [haar_x_left_rect]; omega)
    (by simp only [haar_x_left_rect]; omega)
    (by simp only [haar_x_left_rect]; omega)
    (by simp only [haar_x_left_rect, integral_image.nc, hnc]; omega)
    (by simp only [haar_x_left_rect, integral_image.nr, hnr]; omega)
  have eR : haar_x_right_rect p width = ⟨p.x, p.y - width.tdiv 2,
      p.x - width.tdiv 2 + width - 1, p.y - width.tdiv 2 + width - 1⟩ := rfl
  have eL : haar_x_left_rect p width = ⟨p.x - width.tdiv 2, p.y - width.tdiv 2,
      p.x - 1, p.y - width.tdiv 2 + width - 1⟩ := rfl
  rw [eR, to_long_of_lt _ hright] at hR
  rw [eL, to_long_of_lt _ hleft] at hL
  unfold haar_x
  rw [eR, eL]
  simp only [hcont, Bool.true_eq_false, if_false, hR, hL, bind, Except.bind, pure, Except.pure]
  exact long_sub_of_small _ _ hright hleft

/-- Away from row 0 `haar_y` returns the difference of the brute-force sums
over the bottom and the top rectangle: for `width ≥ 1`, a centered square inside
the full extent, a center with `1 ≤ p.y` and sums below `2^63`. -/
theorem haar_y_value {α : Type} (assign_pixel : α → Nat) (junk : Nat → Nat → Nat)
    (self : integral_image) (img : Grid α) (p : point) (width : Int)
    (hr : 0 < img.nr) (hc : 0 < img.nc) (hw : 1 ≤ width) (hy : 1 ≤ p.y) :
    ∃ res, self.load assign_pixel junk img = Except.ok res
      ∧ ((get_rect res).contains (centered_rect p width width) = true →
          brute_sum assign_pixel img ⟨p.x - width.tdiv 2, p.y,
            p.x - width.tdiv 2 + width - 1, p.y - width.tdiv 2 + width - 1⟩ < LONG_LIMIT →
          brute_sum assign_pixel img ⟨p.x - width.tdiv 2, p.y - width.tdiv 2,
            p.x - width.tdiv 2 + width - 1, p.y - 1⟩ < LONG_LIMIT →
          haar_y res p width = Except.ok
            ((brute_sum assign_pixel img ⟨p.x - width.tdiv 2, p.y,
                p.x - width.tdiv 2 + width - 1, p.y - width.tdiv 2 + width - 1⟩ : Int)
              - (brute_sum assign_pixel img ⟨p.x - width.tdiv 2, p.y - width.tdiv 2,
                  p.x - width.tdiv 2 + width - 1, p.y - 1⟩ : Int))) := by
  obtain ⟨res, hload, hnr, hnc, hcells⟩ := load_table assign_pixel junk self img hr
  refine ⟨res, hload, ?_⟩
  intro hcont hbottom htop
  have hd := (tdiv_two_bounds width).1 (by omega)
  have hin := hcont
  rw [contains_iff] at hin
  simp only [get_rect, centered_rect, integral_image.nr, integral_image.nc, hnr, hnc] at hin
  have hne : ¬ ((img.nr : Int) - 1 < 0 ∨ (img.nc : Int) - 1 < 0) := by omega
  rw [if_neg hne] at hin
  have hB := get_sum_of_area_mod assign_pixel img res hnr hnc hcells
    (haar_y_bottom_rect p width)
    (by simp only [haar_y_bottom_rect, haar_y_top_rect]; omega)
    (by simp only [haar_y_bottom_rect, haar_y_top_rect]; omega)
    (by simp only [haar_y_bottom_rect, haar_y_top_rect]; omega)
    (by simp only [haar_y_bottom_rect, haar_y_top_rect]; omega)
    (by simp only [haar_y_bottom_rect, haar_y_top_rect]; omega)
    (by simp only [haar_y_bottom_rect, haar_y_top_rect]; omega)
    (by simp only [haar_y_bottom_rect, haar_y_top_rect, integral_image.nc, hnc]; omega)
    (by simp only [haar_y_bottom_rect, haar_y_top_rect, integral_image.nr, hnr]; omega)
  have hT := get_sum_of_area_mod assign_pixel img res hnr hnc hcells
    (haar_y_top_rect p width)
    (by simp only [haar_y_top_rect]; omega)
    (by simp only [haar_y_top_rect]; omega)
    (by simp only [haar_y_top_rect]; omega)
    (by simp only [haar_y_top_rect]; omega)
    (by simp only [haar_y_top_rect]; omega)
    (by simp only [haar_y_top_rect]; omega)
    (by simp only [haar_y_top_rect, integral_image.nc, hnc]; omega)
    (by simp only [haar_y_top_rect, integral_image.nr, hnr]; omega)
  have eB : haar_y_bottom_rect p width = ⟨p.x - width.tdiv 2, p.y,
      p.x - width.tdiv 2 + width - 1, p.y - width.tdiv 2 + width - 1⟩ := rfl
  have eT : haar_y_top_rect p width = ⟨p.x - width.tdiv 2, p.y - width.tdiv 2,
      p.x - width.tdiv 2 + width - 1, p.y - 1⟩ := rfl
  rw [eB, to_long_of_lt _ hbottom] at hB
  rw [eT, to_long_of_lt _ htop] at hT
  unfold haar_y
  rw [eB, eT]
  simp only [hcont, Bool.true_eq_false, if_false, hB, hT, bind, Except.bind, pure, Except.pure]
  exact long_sub_of_small _ _ hbottom htop

/-- C3. At a center in column 0 `haar_x` does not return the difference of the
two sums.  On the 3x3 grid of ones with center `(0, 0)` and width 1 the centered
square `(0, 0, 0, 0)` passes the containment check, the sum over the right
columns `[0, 0]` is 1 and the left column range `[0, -1]` is empty, so the
difference is 1; but `get_sum_of_area` on the left rectangle `(0, 0, -1, 0)`
reads the entry at row 0, column -1, which does not exist. -/
theorem haar_x_column_zero_reads_outside :
    (integral_image.empty.load id (fun _ _ => 0) (Grid.const 3 3 1)
        >>= fun img => pure ((get_rect img).contains (centered_rect ⟨0, 0⟩ 1 1)))
      = Except.ok true
    ∧ ((brute_sum id (Grid.const 3 3 1) ⟨0, 0 - Int.tdiv 1 2, 0 - Int.tdiv 1 2 + 1 - 1,
          0 - Int.tdiv 1 2 + 1 - 1⟩ : Int)
        - (brute_sum id (Grid.const 3 3 1) ⟨0 - Int.tdiv 1 2, 0 - Int.tdiv 1 2, 0 - 1,
          0 - Int.tdiv 1 2 + 1 - 1⟩ : Int) = 1)
    ∧ (integral_image.empty.load id (fun _ _ => 0) (Grid.const 3 3 1)
        >>= fun img => img.get_sum_of_area (haar_x_left_rect ⟨0, 0⟩ 1))
      = Except.error Fault.outOfRange
    ∧ (integral_image.empty.load id (fun _ _ => 0) (Grid.const 3 3 1)
        >>= fun img => haar_x img ⟨0, 0⟩ 1)
      = Except.error Fault.outOfRange := by
  decide

/-- C4. At a center in row 0 `haar_y` does not return the difference of the two
sums.  On the 3x3 grid of ones with center `(0, 0)` and width 1 the centered
square `(0, 0, 0, 0)` passes the containment check, the sum over the bottom rows
`[0, 0]` is 1 and the top row range `[0, -1]` is empty, so the difference is 1;
but `get_sum_of_area` on the top rectangle `(0, 0, 0, -1)` reads the entry at
row -1, column 0, which does not exist. -/
theorem haar_y_row_zero_reads_outside :
    (integral_image.empty.load id (fun _ _ => 0) (Grid.const 3 3 1)
        >>= fun img => pure ((get_rect img).contains (centered_rect ⟨0, 0⟩ 1 1)))
      = Except.ok true
    ∧ ((brute_sum id (Grid.const 3 3 1) ⟨0 - Int.tdiv 1 2, 0, 0 - Int.tdiv 1 2 + 1 - 1,
          0 - Int.tdiv 1 2 + 1 - 1⟩ : Int)
        - (brute_sum id (Grid.const 3 3 1) ⟨0 - Int.tdiv 1 2, 0 - Int.tdiv 1 2,
          0 - Int.tdiv 1 2 + 1 - 1, 0 - 1⟩ : Int) = 1)
    ∧ (integral_image.empty.load id (fun _ _ => 0) (Grid.const 3 3 1)
        >>= fun img => img.get_sum_of_area (haar_y_top_rect ⟨0, 0⟩ 1))
      = Except.error Fault.outOfRange
    ∧ (integral_image.empty.load id (fun _ _ => 0) (Grid.const 3 3 1)
        >>= fun img => haar_y img ⟨0, 0⟩ 1)
      = Except.error Fault.outOfRange := by
  decide

/-! ## C15, C16: the widths of the two halves -/

/-- C15. Equal halves for even width: for every center and every even
`width ≥ 2` the left and the right rectangle built by `haar_x` have `width/2`
columns each and the same rows, and the top and the bottom rectangle built by
`haar_y` have `width/2` rows each and the same columns. -/
theorem haar_equal_halves (p : point) (width : Int) (hw : 2 ≤ width) (heven : width % 2 = 0) :
    2 * width.tdiv 2 = width
    ∧ (haar_x_left_rect p width).columns = width.tdiv 2
    ∧ (haar_x_right_rect p width).columns = width.tdiv 2
    ∧ (haar_x_left_rect p width).top = (haar_x_right_rect p width).top
    ∧ (haar_x_left_rect p width).bottom = (haar_x_right_rect p width).bottom
    ∧ (haar_y_top_rect p width).rows = width.tdiv 2
    ∧ (haar_y_bottom_rect p width).rows = width.tdiv 2
    ∧ (haar_y_top_rect p width).left = (haar_y_bottom_rect p width).left
    ∧ (haar_y_top_rect p width).right = (haar_y_bottom_rect p width).right := by
  have hd := (tdiv_two_bounds width).1 (by omega)
  simp only [rectangle.columns, rectangle.rows, haar_x_left_rect, haar_x_right_rect,
    haar_y_top_rect, haar_y_bottom_rect]
  generalize width.tdiv 2 = d at hd ⊢
  refine ⟨?_, ?_, ?_, ?_, ?_, ?_, ?_, ?_, ?_⟩ <;> first | trivial | omega

/-- C15, witness: width 4 around `(5, 5)`; the left columns are `[3, 4]`, the
right columns `[5, 6]`, the top rows `[3, 4]` and the bottom rows `[5, 6]`. -/
theorem haar_equal_halves_witness :
    (haar_x_left_rect ⟨5, 5⟩ 4).columns = 2 ∧ (haar_x_right_rect ⟨5, 5⟩ 4).columns = 2
    ∧ (haar_y_top_rect ⟨5, 5⟩ 4).rows = 2 ∧ (haar_y_bottom_rect ⟨5, 5⟩ 4).rows = 2 := by
  have h := haar_equal_halves ⟨5, 5⟩ 4 (by decide) (by decide)
  exact ⟨h.2.1, h.2.2.1, h.2.2.2.2.2.1, h.2.2.2.2.2.2.1⟩

/-- C16, counterexample: for width 2 around `(1, 1)` the left rectangle is the
column `[0, 0]` and the right rectangle the column `[1, 1]`: each is one column
wide, not two, and together they are two columns wide, not more. -/
theorem haar_x_rects_not_full_width :
    (haar_x_left_rect ⟨1, 1⟩ 2).columns = 1 ∧ (haar_x_right_rect ⟨1, 1⟩ 2).columns = 1
    ∧ (haar_x_left_rect ⟨1, 1⟩ 2).columns ≠ 2 ∧ (haar_x_right_rect ⟨1, 1⟩ 2).columns ≠ 2
    ∧ ¬ ((haar_x_left_rect ⟨1, 1⟩ 2).columns + (haar_x_right_rect ⟨1, 1⟩ 2).columns > 2) := by
  decide

/-- C16, amended. Region width: for every center and every `width ≥ 1` the left
rectangle built by `haar_x` is `width/2` columns wide (truncating division) and
the right rectangle `width - width/2` columns wide; neither is `width` columns
wide unless it is the right rectangle for `width = 1`, and their combined width
is exactly `width`. -/
theorem haar_x_rects_widths (p : point) (width : Int) (hw : 1 ≤ width) :
    (haar_x_left_rect p width).columns = width.tdiv 2
    ∧ (haar_x_right_rect p width).columns = width - width.tdiv 2
    ∧ (haar_x_left_rect p width).columns + (haar_x_right_rect p width).columns = width
    ∧ (haar_x_left_rect p width).columns < width
    ∧ (2 ≤ width → (haar_x_right_rect p width).columns < width) := by
  have hd := (tdiv_two_bounds width).1 (by omega)
  simp only [rectangle.columns, haar_x_left_rect, haar_x_right_rect]
  generalize width.tdiv 2 = d at hd ⊢
  omega

/-- C16, witness: width 3 around `(4, 4)`; the left rectangle has one column,
the right rectangle two. -/
theorem haar_x_rects_widths_witness :
    (haar_x_left_rect ⟨4, 4⟩ 3).columns = 1 ∧ (haar_x_right_rect ⟨4, 4⟩ 3).columns = 2 := by
  have h := haar_x_rects_widths ⟨4, 4⟩ 3 (by decide)
  exact ⟨h.1, h.2.1⟩

/-! ## C13: branches against zero padding -/

theorem inside_of_contains (img : integral_image) (rect : rectangle)
    (hlr : rect.left ≤ rect.right) (htb : rect.top ≤ rect.bottom)
    (hcont : (get_rect img).contains rect = true) :
    0 ≤ rect.left ∧ 0 ≤ rect.top ∧ rect.right < img.nc ∧ rect.bottom < img.nr := by
  rw [contains_iff] at hcont
  simp only [get_rect] at hcont
  split at hcont
  · rw [hcont] at hlr htb
    simp only at hlr htb
    omega
  · omega

theorem four_term_wrap (a b c d : Nat) :
    uadd (usub (usub a b) c) d = wrap ((a : Int) - (b : Int) - (c : Int) + (d : Int)) := by
  have hcast : ((uadd (usub (usub a b) c) d : Nat) : Int)
      = ((wrap ((a : Int) - (b : Int) - (c : Int) + (d : Int)) : Nat) : Int) := by
    simp only [uadd, usub, wrap_cast]
    simp only [ULONG_SIZE]
    push_cast
    omega
  exact_mod_cast hcast

theorem to_long_wrap_of_range (x : Int) (h1 : -(LONG_LIMIT : Int) ≤ x)
    (h2 : x < (LONG_LIMIT : Int)) : to_long (wrap x) = x := by
  have hc := wrap_cast x
  have hlt := wrap_lt x
  simp only [to_long, Nat.mod_eq_of_lt hlt]
  simp only [LONG_LIMIT, ULONG_SIZE] at *
  push_cast at *
  split <;> omega

/-- C13. Branching equals zero padding: for every table and every non-empty
rectangle contained in the full extent, the value returned by the branches of
`get_sum_of_area` is the value of the uniform four-term formula
`P'[b][r] - P'[b][l-1] - P'[t-1][r] + P'[t-1][l-1]` over the table `P'` extended
by zero at row -1 and column -1: computed in the same 64-bit arithmetic the two
agree always, and the result is the integer value of the formula whenever that
value fits a `long`. -/
theorem get_sum_of_area_eq_uniform (self : integral_image) (rect : rectangle)
    (hlr : rect.left ≤ rect.right) (htb : rect.top ≤ rect.bottom)
    (hcont : (get_rect self).contains rect = true) :
    self.get_sum_of_area rect = Except.ok (get_sum_of_area_uniform self rect)
    ∧ get_sum_of_area_uniform self rect = to_long (wrap (four_term_formula self.int_img rect))
    ∧ (-(LONG_LIMIT : Int) ≤ four_term_formula self.int_img rect →
        four_term_formula self.int_img rect < (LONG_LIMIT : Int) →
        self.get_sum_of_area rect = Except.ok (four_term_formula self.int_img rect)) := by
  obtain ⟨hl, ht, hr, hb⟩ := inside_of_contains self rect hlr htb hcont
  have h1 : self.get_sum_of_area rect = Except.ok (get_sum_of_area_uniform self rect) :=
    get_sum_of_area_padded self rect hl ht (by omega) (by omega) (by omega) (by omega) hr hb
  have h2 : get_sum_of_area_uniform self rect
      = to_long (wrap (four_term_formula self.int_img rect)) := by
    simp only [get_sum_of_area_uniform, four_term_formula, four_term_wrap]
  refine ⟨h1, h2, ?_⟩
  intro hlo hhi
  rw [h1, h2, to_long_wrap_of_range _ hlo hhi]

/-- C13, witness: on the table `[[1,2,3],[2,4,6],[3,6,9]]` the rectangle
`(1, 1, 2, 2)` gives `9 - 3 - 3 + 1 = 4` on both sides. -/
theorem get_sum_of_area_eq_uniform_witness :
    integral_image.get_sum_of_area ⟨⟨3, 3, fun r c => (r + 1) * (c + 1)⟩⟩ ⟨1, 1, 2, 2⟩
        = Except.ok 4
    ∧ four_term_formula ⟨3, 3, fun r c => (r + 1) * (c + 1)⟩ ⟨1, 1, 2, 2⟩ = 4 :=
  ⟨(get_sum_of_area_eq_uniform ⟨⟨3, 3, fun r c => (r + 1) * (c + 1)⟩⟩ ⟨1, 1, 2, 2⟩
      (by decide) (by decide) (by decide)).2.2 (by decide) (by decide), by decide⟩

/-! ## C14 and C17: reads of empty rectangles -/

theorem read_long_neg_col (a : array2d) (r c : Int) (hc : c < 0) :
    a.read_long r c = Except.error Fault.outOfRange := by
  have h : ¬ (0 ≤ r ∧ 0 ≤ c) := by omega
  simp [array2d.read_long, h, throw, throwThe, MonadExceptOf.throw]

theorem read_long_neg_row (a : array2d) (r c : Int) (hr : r < 0) :
    a.read_long r c = Except.error Fault.outOfRange := by
  have h : ¬ (0 ≤ r ∧ 0 ≤ c) := by omega
  simp [array2d.read_long, h, throw, throwThe, MonadExceptOf.throw]

/-- A rectangle that passes the containment check and has a negative right
column or a negative bottom row makes `get_sum_of_area` read outside the table:
the read of `int_img[bottom][right]` is not guarded. -/
theorem get_sum_of_area_reads_outside (self : integral_image) (rect : rectangle)
    (hcont : (get_rect self).contains rect = true)
    (hneg : rect.right < 0 ∨ rect.bottom < 0) :
    self.get_sum_of_area rect = Except.error Fault.outOfRange := by
  have hread : self.int_img.read_long rect.bottom rect.right
      = Except.error Fault.outOfRange := by
    rcases hneg with h | h
    · exact read_long_neg_col _ _ _ h
    · exact read_long_neg_row _ _ _ h
  simp [integral_image.get_sum_of_area, hcont, hread, bind, Except.bind, pure, Except.pure]

/-- The two queries of `haar_x` for `width ≥ 1` and a centered square inside
the full extent: the right rectangle is always read inside the table, the left
rectangle exactly when the center is not in column 0. -/
theorem haar_x_queries (img : integral_image) (p : point) (width : Int) (hw : 1 ≤ width)
    (hnr : 0 < img.nr) (hnc : 0 < img.nc)
    (hcont : (get_rect img).contains (centered_rect p width width) = true) :
    (∃ v, img.get_sum_of_area (haar_x_right_rect p width) = Except.ok v)
    ∧ (1 ≤ p.x → ∃ v, img.get_sum_of_area (haar_x_left_rect p width) = Except.ok v)
    ∧ (p.x = 0 →
        img.get_sum_of_area (haar_x_left_rect p width) = Except.error Fault.outOfRange
        ∧ haar_x img p width = Except.error Fault.outOfRange) := by
  have hd := (tdiv_two_bounds width).1 (by omega)
  have hin := hcont
  rw [contains_iff] at hin
  simp only [get_rect, centered_rect] at hin
  have hne : ¬ (img.nr - 1 < 0 ∨ img.nc - 1 < 0) := by omega
  rw [if_neg hne] at hin
  have hright : ∃ v, img.get_sum_of_area (haar_x_right_rect p width) = Except.ok v :=
    ⟨_, get_sum_of_area_padded img (haar_x_right_rect p width)
      (by simp only [haar_x_right_rect, haar_x_left_rect]; omega)
      (by simp only [haar_x_right_rect, haar_x_left_rect]; omega)
      (by simp only [haar_x_right_rect, haar_x_left_rect]; omega)
      (by simp only [haar_x_right_rect, haar_x_left_rect]; omega)
      (by simp only [haar_x_right_rect, haar_x_left_rect]; omega)
      (by simp only [haar_x_right_rect, haar_x_left_rect]; omega)
      (by simp only [haar_x_right_rect, haar_x_left_rect]; omega)
      (by simp only [haar_x_right_rect, haar_x_left_rect]; omega)⟩
  refine ⟨hright, ?_, ?_⟩
  · intro hx
    exact ⟨_, get_sum_of_area_padded img (haar_x_left_rect p width)
      (by simp only [haar_x_left_rect]; omega)
      (by simp only [haar_x_left_rect]; omega)
      (by simp only [haar_x_left_rect]; omega)
      (by simp only [haar_x_left_rect]; omega)
      (by simp only [haar_x_left_rect]; omega)
      (by simp only [haar_x_left_rect]; omega)
      (by simp only [haar_x_left_rect]; omega)
      (by simp only [haar_x_left_rect]; omega)⟩
  · intro hx
    have hleft : img.get_sum_of_area (haar_x_left_rect p width)
        = Except.error Fault.outOfRange :=
      get_sum_of_area_reads_outside img _ (haar_rects_contained img p width hcont).2.1
        (Or.inl (by simp only [haar_x_left_rect]; omega))
    obtain ⟨v, hv⟩ := hright
    refine ⟨hleft, ?_⟩
    simp [haar_x, hcont, hv, hleft, bind, Except.bind, pure, Except.pure]

/-- C14. A rectangle that satisfies the containment precondition can make
`get_sum_of_area` read outside the table.  On the image loaded from the 3x3 grid
of ones the empty rectangle `(0, 0, -1, -1)` is contained in the full extent
`(0, 0, 2, 2)`, and the unconditional read of `int_img[bottom][right]` is the
read of `int_img[-1][-1]`; the same happens on the image loaded from the grid
without rows and columns, whose full extent is `(0, 0, -1, -1)` itself. -/
theorem get_sum_of_area_empty_rect_reads_outside :
    (integral_image.empty.load id (fun _ _ => 0) (Grid.const 3 3 1)
        >>= fun img => pure ((get_rect img).contains ⟨0, 0, -1, -1⟩))
      = Except.ok true
    ∧ (integral_image.empty.load id (fun _ _ => 0) (Grid.const 3 3 1)
        >>= fun img => img.int_img.read_long (-1) (-1))
      = Except.error Fault.outOfRange
    ∧ (integral_image.empty.load id (fun _ _ => 0) (Grid.const 3 3 1)
        >>= fun img => img.get_sum_of_area ⟨0, 0, -1, -1⟩)
      = Except.error Fault.outOfRange
    ∧ (integral_image.empty.load id (fun _ _ => 0) (Grid.const 0 0 1)
        >>= fun img => pure ((get_rect img).contains ⟨0, 0, -1, -1⟩))
      = Except.ok true
    ∧ (integral_image.empty.load id (fun _ _ => 0) (Grid.const 0 0 1)
        >>= fun img => img.get_sum_of_area ⟨0, 0, -1, -1⟩)
      = Except.error Fault.outOfRange := by
  decide

/-- C17. The sub-queries of `haar_x` do not stay in bounds at column 0.  On the
image loaded from the 3x3 grid of ones, with center `(0, 1)` and width 1, the
centered square `(0, 1, 0, 1)` is contained in the full extent; the query on the
right rectangle `(0, 1, 0, 1)` returns 1, but the left rectangle is
`(0, 1, -1, 1)` and its query reads `int_img[1][-1]`, so that `haar_x` reads
outside the table. -/
theorem haar_x_left_query_reads_outside :
    (integral_image.empty.load id (fun _ _ => 0) (Grid.const 3 3 1)
        >>= fun img => pure ((get_rect img).contains (centered_rect ⟨0, 1⟩ 1 1)))
      = Except.ok true
    ∧ haar_x_left_rect ⟨0, 1⟩ 1 = ⟨0, 1, -1, 1⟩
    ∧ (integral_image.empty.load id (fun _ _ => 0) (Grid.const 3 3 1)
        >>= fun img => img.get_sum_of_area (haar_x_right_rect ⟨0, 1⟩ 1))
      = Except.ok 1
    ∧ (integral_image.empty.load id (fun _ _ => 0) (Grid.const 3 3 1)
        >>= fun img => img.int_img.read_long 1 (-1))
      = Except.error Fault.outOfRange
    ∧ (integral_image.empty.load id (fun _ _ => 0) (Grid.const 3 3 1)
        >>= fun img => img.get_sum_of_area (haar_x_left_rect ⟨0, 1⟩ 1))
      = Except.error Fault.outOfRange
    ∧ (integral_image.empty.load id (fun _ _ => 0) (Grid.const 3 3 1)
        >>= fun img => haar_x img ⟨0, 1⟩ 1)
      = Except.error Fault.outOfRange := by
  decide

/-! ## C19: wrap-around -/

/-- C19. Wrap-around is harmless: with the table and the intermediate terms in
unsigned 64-bit arithmetic and the result read as a signed 64-bit value, for
every source grid and every non-empty rectangle contained in the full extent
`(0, 0, cols-1, rows-1)`, `load` completes, every table entry is the sum from
the origin reduced modulo `2^64` (it may have wrapped), the value returned by
`get_sum_of_area` is the four-term expression over these entries reduced modulo
`2^64` (the integer value of `bottom_right - bottom_left - top_right` may be
negative), and it is the exact sum over the rectangle whenever that sum is
below `2^63`. -/
theorem wrap_around_harmless {α : Type} (assign_pixel : α → Nat) (junk : Nat → Nat → Nat)
    (self : integral_image) (img : Grid α) (rect : rectangle)
    (hlr : rect.left ≤ rect.right) (htb : rect.top ≤ rect.bottom)
    (hl : 0 ≤ rect.left) (ht : 0 ≤ rect.top)
    (hr : rect.right ≤ (img.nc : Int) - 1) (hb : rect.bottom ≤ (img.nr : Int) - 1)
    (hsum : brute_sum assign_pixel img rect < LONG_LIMIT) :
    ∃ res, self.load assign_pixel junk img = Except.ok res
      ∧ (get_rect res).contains rect = true
      ∧ (∀ r c, r < img.nr → c < img.nc → res.int_img.cell r c
          = brute_sum assign_pixel img ⟨0, 0, (c : Int), (r : Int)⟩ % ULONG_SIZE)
      ∧ res.get_sum_of_area rect
          = Except.ok (to_long (wrap (four_term_formula res.int_img rect)))
      ∧ res.get_sum_of_area rect = Except.ok (brute_sum assign_pixel img rect : Int) := by
  obtain ⟨res, hload, hnr, hnc, hcells⟩ :=
    load_table assign_pixel junk self img (by omega)
  have hr2 : rect.right < res.nc := by simp only [integral_image.nc, hnc]; omega
  have hb2 : rect.bottom < res.nr := by simp only [integral_image.nr, hnr]; omega
  have hcont : (get_rect res).contains rect = true :=
    contains_of_inside res rect hl ht (by omega) (by omega) hr2 hb2
  have hexact := get_sum_of_area_mod assign_pixel img res hnr hnc hcells rect hl ht
    (by omega) (by omega) (by omega) (by omega) hr2 hb2
  rw [to_long_of_lt _ hsum] at hexact
  have hpad := get_sum_of_area_padded res rect hl ht (by omega) (by omega) (by omega)
    (by omega) hr2 hb2
  refine ⟨res, hload, hcont, ?_, ?_, hexact⟩
  · intro r c hrr hcc
    rw [hcells r c hrr hcc, brute_sum_origin]
  · rw [hpad, four_term_wrap]
    rfl

/-- C19, witness: the 2x2 grid with the rows `[2^63, 2^63]` and `[5, 7]`.  The
sum `2^64` of the first row wraps to the entry 0, the table is
`[[2^63, 0], [2^63 + 5, 12]]`, and for the bottom-right pixel
`bottom_right - bottom_left - top_right = 12 - (2^63 + 5) - 0` is negative;
`get_sum_of_area` still returns 7. -/
theorem wrap_around_harmless_witness :
    ∃ res, integral_image.empty.load id (fun _ _ => 0)
        ⟨2, 2, fun r c => if r = 0 then 9223372036854775808 else 5 + 2 * c⟩ = Except.ok res
      ∧ brute_sum id (⟨2, 2, fun r c => if r = 0 then 9223372036854775808 else 5 + 2 * c⟩ :
          Grid Nat) ⟨0, 0, 1, 0⟩ = 18446744073709551616
      ∧ res.int_img.cell 0 0 = 9223372036854775808
      ∧ res.int_img.cell 0 1 = 0
      ∧ res.int_img.cell 1 0 = 9223372036854775813
      ∧ res.int_img.cell 1 1 = 12
      ∧ res.get_sum_of_area ⟨1, 1, 1, 1⟩ = Except.ok 7 := by
  obtain ⟨res, hload, _, hcells, _, hsum⟩ := wrap_around_harmless id (fun _ _ => 0)
    integral_image.empty
    (⟨2, 2, fun r c => if r = 0 then 9223372036854775808 else 5 + 2 * c⟩ : Grid Nat)
    ⟨1, 1, 1, 1⟩ (by decide) (by decide) (by decide) (by decide) (by decide) (by decide)
    (by decide)
  exact ⟨res, hload, by decide, hcells 0 0 (by decide) (by decide),
    hcells 0 1 (by decide) (by decide), hcells 1 0 (by decide) (by decide),
    hcells 1 1 (by decide) (by decide), hsum⟩

/-! ## Splitting sums -/

theorem sum_range_split (f : Nat → Nat) (lo mid hi : Int) (h1 : lo ≤ mid)
    (h2 : mid ≤ hi + 1) :
    sum_range f lo (mid - 1) + sum_range f mid hi = sum_range f lo hi := by
  unfold sum_range
  have hfun : (fun k : Nat => f (mid + (k : Int)).toNat)
      = fun k : Nat => (fun j : Nat => f (lo + (j : Int)).toNat) ((mid - lo).toNat + k) := by
    funext k
    congr 1
    omega
  have e1 : (mid - 1 + 1 - lo).toNat = (mid - lo).toNat := by congr 1; omega
  have e2 : (hi + 1 - lo).toNat = (mid - lo).toNat + (hi + 1 - mid).toNat := by omega
  rw [hfun, e1, e2]
  exact sum_below_shift (fun j : Nat => f (lo + (j : Int)).toNat) _ _

theorem sum_range_add (f g : Nat → Nat) (lo hi : Int) :
    sum_range (fun k => f k + g k) lo hi = sum_range f lo hi + sum_range g lo hi := by
  unfold sum_range
  exact sum_below_add _ _ _

/-- Two rectangles side by side: the brute-force sums add up. -/
theorem brute_sum_split_columns {α : Type} (assign_pixel : α → Nat) (img : Grid α)
    (l t r b m : Int) (h1 : l ≤ m) (h2 : m ≤ r + 1) :
    brute_sum assign_pixel img ⟨l, t, m - 1, b⟩ + brute_sum assign_pixel img ⟨m, t, r, b⟩
      = brute_sum assign_pixel img ⟨l, t, r, b⟩ := by
  unfold brute_sum
  simp only
  rw [← sum_range_add]
  congr 1
  funext i
  exact sum_range_split _ l m r h1 h2

/-- Two rectangles on top of each other: the brute-force sums add up. -/
theorem brute_sum_split_rows {α : Type} (assign_pixel : α → Nat) (img : Grid α)
    (l t r b m : Int) (h1 : t ≤ m) (h2 : m ≤ b + 1) :
    brute_sum assign_pixel img ⟨l, t, r, m - 1⟩ + brute_sum assign_pixel img ⟨l, m, r, b⟩
      = brute_sum assign_pixel img ⟨l, t, r, b⟩ := by
  unfold brute_sum
  exact sum_range_split _ t m b h1 h2

theorem wrap_to_long_add (x y : Nat) :
    wrap (to_long (x % ULONG_SIZE) + to_long (y % ULONG_SIZE)) = (x + y) % ULONG_SIZE := by
  have hcast : ((wrap (to_long (x % ULONG_SIZE) + to_long (y % ULONG_SIZE)) : Nat) : Int)
      = (((x + y) % ULONG_SIZE : Nat) : Int) := by
    rw [wrap_cast]
    simp only [to_long, Nat.mod_mod]
    simp only [ULONG_SIZE, LONG_LIMIT]
    push_cast
    split <;> split <;> omega
  exact_mod_cast hcast

/-! ## C11: additivity -/

/-- C11. Additivity: on the image loaded from a grid, for non-empty rectangles
`A` and `B` inside the full extent that tile the rectangle
`W = (A.left, A.top, B.right, B.bottom)` (side by side: same top and bottom and
`B.left = A.right + 1`; or stacked: same left and right and
`B.top = A.bottom + 1`), the three queries return values with
`get_sum_of_area(A) + get_sum_of_area(B) = get_sum_of_area(W)`: in 64-bit `long`
arithmetic always, and as integers whenever the sum over `W` is below `2^63`. -/
theorem get_sum_of_area_additive {α : Type} (assign_pixel : α → Nat)
    (junk : Nat → Nat → Nat) (self : integral_image) (img : Grid α) (hr : 0 < img.nr) :
    ∃ res, self.load assign_pixel junk img = Except.ok res
      ∧ get_rect res = ⟨0, 0, (img.nc : Int) - 1, (img.nr : Int) - 1⟩
      ∧ ∀ A B : rectangle, A.left ≤ A.right → A.top ≤ A.bottom →
          B.left ≤ B.right → B.top ≤ B.bottom →
          (get_rect res).contains A = true → (get_rect res).contains B = true →
          ((A.top = B.top ∧ A.bottom = B.bottom ∧ B.left = A.right + 1)
            ∨ (A.left = B.left ∧ A.right = B.right ∧ B.top = A.bottom + 1)) →
          ∃ a b w, res.get_sum_of_area A = Except.ok a
            ∧ res.get_sum_of_area B = Except.ok b
            ∧ res.get_sum_of_area ⟨A.left, A.top, B.right, B.bottom⟩ = Except.ok w
            ∧ (get_rect res).contains ⟨A.left, A.top, B.right, B.bottom⟩ = true
            ∧ to_long (wrap (a + b)) = w
            ∧ (brute_sum assign_pixel img ⟨A.left, A.top, B.right, B.bottom⟩ < LONG_LIMIT →
                a + b = w) := by
  obtain ⟨res, hload, hnr, hnc, hcells⟩ := load_table assign_pixel junk self img hr
  refine ⟨res, hload, ?_, ?_⟩
  · simp [get_rect, integral_image.nc, integral_image.nr, hnr, hnc]
  intro A B hAlr hAtb hBlr hBtb hAc hBc htile
  obtain ⟨hAl, hAt, hAr, hAb⟩ := inside_of_contains res A hAlr hAtb hAc
  obtain ⟨hBl, hBt, hBr, hBb⟩ := inside_of_contains res B hBlr hBtb hBc
  rcases A with ⟨al, at_, ar, ab⟩
  rcases B with ⟨bl, bt, br, bb⟩
  simp only at hAlr hAtb hBlr hBtb hAl hAt hAr hAb hBl hBt hBr hBb htile ⊢
  have hsplit : brute_sum assign_pixel img ⟨al, at_, ar, ab⟩
      + brute_sum assign_pixel img ⟨bl, bt, br, bb⟩
      = brute_sum assign_pixel img ⟨al, at_, br, bb⟩ := by
    rcases htile with ⟨h1, h2, h3⟩ | ⟨h1, h2, h3⟩
    · subst h1 h2
      have har : ar = bl - 1 := by omega
      subst har
      exact brute_sum_split_columns assign_pixel img al at_ br ab bl (by omega) (by omega)
    · subst h1 h2
      have hab : ab = bt - 1 := by omega
      subst hab
      exact brute_sum_split_rows assign_pixel img al at_ ar bb bt (by omega) (by omega)
  have hWl : al ≤ br := by rcases htile with ⟨_, _, h3⟩ | ⟨h1, h2, _⟩ <;> omega
  have hWt : at_ ≤ bb := by rcases htile with ⟨h1, h2, _⟩ | ⟨_, _, h3⟩ <;> omega
  have hA := get_sum_of_area_mod assign_pixel img res hnr hnc hcells ⟨al, at_, ar, ab⟩
    hAl hAt (by simp only; omega) (by simp only; omega) (by simp only; omega)
    (by simp only; omega) hAr hAb
  have hB := get_sum_of_area_mod assign_pixel img res hnr hnc hcells ⟨bl, bt, br, bb⟩
    hBl hBt (by simp only; omega) (by simp only; omega) (by simp only; omega)
    (by simp only; omega) hBr hBb
  have hW := get_sum_of_area_mod assign_pixel img res hnr hnc hcells ⟨al, at_, br, bb⟩
    hAl hAt (by simp only; omega) (by simp only; omega) (by simp only; omega)
    (by simp only; omega) hBr hBb
  have hWc : (get_rect res).contains ⟨al, at_, br, bb⟩ = true :=
    contains_of_inside res _ hAl hAt (by simp only; omega) (by simp only; omega) hBr hBb
  refine ⟨_, _, _, hA, hB, hW, hWc, ?_, ?_⟩
  · rw [wrap_to_long_add, hsplit]
  · intro hsum
    have hsA : brute_sum assign_pixel img ⟨al, at_, ar, ab⟩ < LONG_LIMIT := by omega
    have hsB : brute_sum assign_pixel img ⟨bl, bt, br, bb⟩ < LONG_LIMIT := by omega
    rw [to_long_of_lt _ hsA, to_long_of_lt _ hsB, to_long_of_lt _ hsum, ← hsplit]
    push_cast
    rfl

/-- C11, witness: on the image of the 3x3 grid of ones, the left column
`(0, 0, 0, 2)` and the two right columns `(1, 0, 2, 2)` give `3 + 6 = 9`, the sum
of the whole; the top row `(0, 0, 2, 0)` and the rows below `(0, 1, 2, 2)` give
`3 + 6 = 9` as well. -/
theorem get_sum_of_area_additive_witness :
    ∃ res, integral_image.empty.load id (fun _ _ => 0) (Grid.const 3 3 1) = Except.ok res
      ∧ (∃ a b w, res.get_sum_of_area ⟨0, 0, 0, 2⟩ = Except.ok a
          ∧ res.get_sum_of_area ⟨1, 0, 2, 2⟩ = Except.ok b
          ∧ res.get_sum_of_area ⟨0, 0, 2, 2⟩ = Except.ok w ∧ a + b = w)
      ∧ (∃ a b w, res.get_sum_of_area ⟨0, 0, 2, 0⟩ = Except.ok a
          ∧ res.get_sum_of_area ⟨0, 1, 2, 2⟩ = Except.ok b
          ∧ res.get_sum_of_area ⟨0, 0, 2, 2⟩ = Except.ok w ∧ a + b = w) := by
  obtain ⟨res, hload, hrect, hadd⟩ := get_sum_of_area_additive id (fun _ _ => 0)
    integral_image.empty (Grid.const 3 3 1) (by decide)
  refine ⟨res, hload, ?_, ?_⟩
  · obtain ⟨a, b, w, ha, hb, hw, _, _, hsum⟩ := hadd ⟨0, 0, 0, 2⟩ ⟨1, 0, 2, 2⟩
      (by decide) (by decide) (by decide) (by decide) (by rw [hrect]; decide)
      (by rw [hrect]; decide) (Or.inl (by decide))
    exact ⟨a, b, w, ha, hb, hw, hsum (by decide)⟩
  · obtain ⟨a, b, w, ha, hb, hw, _, _, hsum⟩ := hadd ⟨0, 0, 2, 0⟩ ⟨0, 1, 2, 2⟩
      (by decide) (by decide) (by decide) (by decide) (by rw [hrect]; decide)
      (by rw [hrect]; decide) (Or.inr (by decide))
    exact ⟨a, b, w, ha, hb, hw, hsum (by decide)⟩

/-! ## C18: the halves tile the centered square -/

theorem sum_range_congr (f g : Nat → Nat) (lo hi : Int) (h0 : 0 ≤ lo)
    (h : ∀ k : Nat, lo ≤ (k : Int) → (k : Int) ≤ hi → f k = g k) :
    sum_range f lo hi = sum_range g lo hi := by
  unfold sum_range
  apply sum_below_congr
  intro k hk
  exact h _ (by omega) (by omega)

/-- The brute-force sum over a rectangle depends on the pixels of the rectangle
only. -/
theorem brute_sum_congr {α : Type} (assign_pixel : α → Nat) (g1 g2 : Grid α)
    (rect : rectangle) (hl : 0 ≤ rect.left) (ht : 0 ≤ rect.top)
    (h : ∀ r c : Nat, rect.covers (c : Int) (r : Int) →
      assign_pixel (g1.pix r c) = assign_pixel (g2.pix r c)) :
    brute_sum assign_pixel g1 rect = brute_sum assign_pixel g2 rect := by
  unfold brute_sum
  apply sum_range_congr _ _ _ _ ht
  intro r hr1 hr2
  apply sum_range_congr _ _ _ _ hl
  intro c hc1 hc2
  exact h r c ⟨hc1, hc2, hr1, hr2⟩

/-- The rectangles of `haar_x` and `haar_y` in terms of the centered square. -/
theorem haar_rects_of_square (p : point) (width : Int) :
    haar_x_left_rect p width = ⟨(centered_rect p width width).left,
      (centered_rect p width width).top, p.x - 1, (centered_rect p width width).bottom⟩
    ∧ haar_x_right_rect p width = ⟨p.x, (centered_rect p width width).top,
      (centered_rect p width width).right, (centered_rect p width width).bottom⟩
    ∧ haar_y_top_rect p width = ⟨(centered_rect p width width).left,
      (centered_rect p width width).top, (centered_rect p width width).right, p.y - 1⟩
    ∧ haar_y_bottom_rect p width = ⟨(centered_rect p width width).left, p.y,
      (centered_rect p width width).right, (centered_rect p width width).bottom⟩ :=
  ⟨rfl, rfl, rfl, rfl⟩

/-- The center lies in the square, or just behind its last column and row for
`width = 0`: `left ≤ p.x ≤ right + 1` and `top ≤ p.y ≤ bottom + 1`. -/
theorem center_in_square (p : point) (width : Int) (hw : 0 ≤ width) :
    (centered_rect p width width).left ≤ p.x
    ∧ p.x ≤ (centered_rect p width width).right + 1
    ∧ (centered_rect p width width).top ≤ p.y
    ∧ p.y ≤ (centered_rect p width width).bottom + 1 := by
  have hd := (tdiv_two_bounds width).1 hw
  simp only [centered_rect]
  generalize width.tdiv 2 = d at hd ⊢
  omega

/-- The sums over the two halves add up to the sum over the centered square. -/
theorem haar_halves_sum {α : Type} (assign_pixel : α → Nat) (img : Grid α) (p : point)
    (width : Int) (hw : 0 ≤ width) :
    brute_sum assign_pixel img (haar_x_left_rect p width)
        + brute_sum assign_pixel img (haar_x_right_rect p width)
      = brute_sum assign_pixel img (centered_rect p width width)
    ∧ brute_sum assign_pixel img (haar_y_top_rect p width)
        + brute_sum assign_pixel img (haar_y_bottom_rect p width)
      = brute_sum assign_pixel img (centered_rect p width width) := by
  obtain ⟨h1, h2, h3, h4⟩ := center_in_square p width hw
  obtain ⟨e1, e2, e3, e4⟩ := haar_rects_of_square p width
  rw [e1, e2, e3, e4]
  exact ⟨brute_sum_split_columns assign_pixel img _ _ _ _ p.x h1 h2,
    brute_sum_split_rows assign_pixel img _ _ _ _ p.y h3 h4⟩

/-- The two queries of `haar_y` for `width ≥ 1` and a centered square inside
the full extent: the bottom rectangle is always read inside the table, the top
rectangle exactly when the center is not in row 0. -/
theorem haar_y_queries (img : integral_image) (p : point) (width : Int) (hw : 1 ≤ width)
    (hnr : 0 < img.nr) (hnc : 0 < img.nc)
    (hcont : (get_rect img).contains (centered_rect p width width) = true) :
    (∃ v, img.get_sum_of_area (haar_y_bottom_rect p width) = Except.ok v)
    ∧ (1 ≤ p.y → ∃ v, img.get_sum_of_area (haar_y_top_rect p width) = Except.ok v)
    ∧ (p.y = 0 →
        img.get_sum_of_area (haar_y_top_rect p width) = Except.error Fault.outOfRange
        ∧ haar_y img p width = Except.error Fault.outOfRange) := by
  have hd := (tdiv_two_bounds width).1 (by omega)
  have hin := hcont
  rw [contains_iff] at hin
  simp only [get_rect, centered_rect] at hin
  have hne : ¬ (img.nr - 1 < 0 ∨ img.nc - 1 < 0) := by omega
  rw [if_neg hne] at hin
  have hbottom : ∃ v, img.get_sum_of_area (haar_y_bottom_rect p width) = Except.ok v :=
    ⟨_, get_sum_of_area_padded img (haar_y_bottom_rect p width)
      (by simp only [haar_y_bottom_rect, haar_y_top_rect]; omega)
      (by simp only [haar_y_bottom_rect, haar_y_top_rect]; omega)
      (by simp only [haar_y_bottom_rect, haar_y_top_rect]; omega)
      (by simp only [haar_y_bottom_rect, haar_y_top_rect]; omega)
      (by simp only [haar_y_bottom_rect, haar_y_top_rect]; omega)
      (by simp only [haar_y_bottom_rect, haar_y_top_rect]; omega)
      (by simp only [haar_y_bottom_rect, haar_y_top_rect]; omega)
      (by simp only [haar_y_bottom_rect, haar_y_top_rect]; omega)⟩
  refine ⟨hbottom, ?_, ?_⟩
  · intro hy
    exact ⟨_, get_sum_of_area_padded img (haar_y_top_rect p width)
      (by simp only [haar_y_top_rect]; omega)
      (by simp only [haar_y_top_rect]; omega)
      (by simp only [haar_y_top_rect]; omega)
      (by simp only [haar_y_top_rect]; omega)
      (by simp only [haar_y_top_rect]; omega)
      (by simp only [haar_y_top_rect]; omega)
      (by simp only [haar_y_top_rect]; omega)
      (by simp only [haar_y_top_rect]; omega)⟩
  · intro hy
    have htop : img.get_sum_of_area (haar_y_top_rect p width)
        = Except.error Fault.outOfRange :=
      get_sum_of_area_reads_outside img _ (haar_rects_contained img p width hcont).2.2.2
        (Or.inr (by simp only [haar_y_top_rect]; omega))
    obtain ⟨v, hv⟩ := hbottom
    refine ⟨htop, ?_⟩
    simp [haar_y, hcont, hv, htop, bind, Except.bind, pure, Except.pure]

/-- The run of `haar_x` on a table that holds the sums of `img` modulo `2^64`,
for `width ≥ 1` and a centered square inside the full extent. -/
theorem haar_x_run {α : Type} (assign_pixel : α → Nat) (img : Grid α) (res : integral_image)
    (hnr : res.int_img.nr = img.nr) (hnc : res.int_img.nc = img.nc)
    (hcells : ∀ r c, r < img.nr → c < img.nc →
      res.int_img.cell r c = prefix_sum assign_pixel img (r + 1) (c + 1) % ULONG_SIZE)
    (p : point) (width : Int) (hw : 1 ≤ width) (hr : 0 < img.nr) (hc : 0 < img.nc)
    (hcont : (get_rect res).contains (centered_rect p width width) = true) :
    (1 ≤ p.x → haar_x res p width = long_sub
        (to_long (brute_sum assign_pixel img (haar_x_right_rect p width) % ULONG_SIZE))
        (to_long (brute_sum assign_pixel img (haar_x_left_rect p width) % ULONG_SIZE)))
    ∧ (p.x = 0 → haar_x res p width = Except.error Fault.outOfRange) := by
  have hnr2 : 0 < res.nr := by simp only [integral_image.nr, hnr]; omega
  have hnc2 : 0 < res.nc := by simp only [integral_image.nc, hnc]; omega
  refine ⟨?_, fun hx => ((haar_x_queries res p width hw hnr2 hnc2 hcont).2.2 hx).2⟩
  intro hx
  have hd := (tdiv_two_bounds width).1 (by omega)
  have hin := hcont
  rw [contains_iff] at hin
  simp only [get_rect, centered_rect] at hin
  have hne : ¬ (res.nr - 1 < 0 ∨ res.nc - 1 < 0) := by omega
  rw [if_neg hne] at hin
  have hR := get_sum_of_area_mod assign_pixel img res hnr hnc hcells
    (haar_x_right_rect p width)
    (by simp only [haar_x_right_rect, haar_x_left_rect]; omega)
    (by simp only [haar_x_right_rect, haar_x_left_rect]; omega)
    (by simp only [haar_x_right_rect, haar_x_left_rect]; omega)
    (by simp only [haar_x_right_rect, haar_x_left_rect]; omega)
    (by simp only [haar_x_right_rect, haar_x_left_rect]; omega)
    (by simp only [haar_x_right_rect, haar_x_left_rect]; omega)
    (by simp only [haar_x_right_rect, haar_x_left_rect]; omega)
    (by simp only [haar_x_right_rect, haar_x_left_rect]; omega)
  have hL := get_sum_of_area_mod assign_pixel img res hnr hnc hcells
    (haar_x_left_rect p width)
    (by simp only [haar_x_left_rect]; omega)
    (by simp only [haar_x_left_rect]; omega)
    (by simp only [haar_x_left_rect]; omega)
    (by simp only [haar_x_left_rect]; omega)
    (by simp only [haar_x_left_rect]; omega)
    (by simp only [haar_x_left_rect]; omega)
    (by simp only [haar_x_left_rect]; omega)
    (by simp only [haar_x_left_rect]; omega)
  simp only [haar_x, hcont, Bool.true_eq_false, if_false, hR, hL, bind, Except.bind, pure,
    Except.pure]

/-- The run of `haar_y` on a table that holds the sums of `img` modulo `2^64`,
for `width ≥ 1` and a centered square inside the full extent. -/
theorem haar_y_run {α : Type} (assign_pixel : α → Nat) (img : Grid α) (res : integral_image)
    (hnr : res.int_img.nr = img.nr) (hnc : res.int_img.nc = img.nc)
    (hcells : ∀ r c, r < img.nr → c < img.nc →
      res.int_img.cell r c = prefix_sum assign_pixel img (r + 1) (c + 1) % ULONG_SIZE)
    (p : point) (width : Int) (hw : 1 ≤ width) (hr : 0 < img.nr) (hc : 0 < img.nc)
    (hcont : (get_rect res).contains (centered_rect p width width) = true) :
    (1 ≤ p.y → haar_y res p width = long_sub
        (to_long (brute_sum assign_pixel img (haar_y_bottom_rect p width) % ULONG_SIZE))
        (to_long (brute_sum assign_pixel img (haar_y_top_rect p width) % ULONG_SIZE)))
    ∧ (p.y = 0 → haar_y res p width = Except.error Fault.outOfRange) := by
  have hnr2 : 0 < res.nr := by simp only [integral_image.nr, hnr]; omega
  have hnc2 : 0 < res.nc := by simp only [integral_image.nc, hnc]; omega
  refine ⟨?_, fun hy => ((haar_y_queries res p width hw hnr2 hnc2 hcont).2.2 hy).2⟩
  intro hy
  have hd := (tdiv_two_bounds width).1 (by omega)
  have hin := hcont
  rw [contains_iff] at hin
  simp only [get_rect, centered_rect] at hin
  have hne : ¬ (res.nr - 1 < 0 ∨ res.nc - 1 < 0) := by omega
  rw [if_neg hne] at hin
  have hB := get_sum_of_area_mod assign_pixel img res hnr hnc hcells
    (haar_y_bottom_rect p width)
    (by simp only [haar_y_bottom_rect, haar_y_top_rect]; omega)
    (by simp only [haar_y_bottom_rect, haar_y_top_rect]; omega)
    (by simp only [haar_y_bottom_rect, haar_y_top_rect]; omega)
    (by simp only [haar_y_bottom_rect, haar_y_top_rect]; omega)
    (by simp only [haar_y_bottom_rect, haar_y_top_rect]; omega)
    (by simp only [haar_y_bottom_rect, haar_y_top_rect]; omega)
    (by simp only [haar_y_bottom_rect, haar_y_top_rect]; omega)
    (by simp only [haar_y_bottom_rect, haar_y_top_rect]; omega)
  have hT := get_sum_of_area_mod assign_pixel img res hnr hnc hcells
    (haar_y_top_rect p width)
    (by simp only [haar_y_top_rect]; omega)
    (by simp only [haar_y_top_rect]; omega)
    (by simp only [haar_y_top_rect]; omega)
    (by simp only [haar_y_top_rect]; omega)
    (by simp only [haar_y_top_rect]; omega)
    (by simp only [haar_y_top_rect]; omega)
    (by simp only [haar_y_top_rect]; omega)
    (by simp only [haar_y_top_rect]; omega)
  simp only [haar_y, hcont, Bool.true_eq_false, if_false, hB, hT, bind, Except.bind, pure,
    Except.pure]

/-- The runs of `haar_x` and `haar_y` depend on the pixels of the centered
square only: two grids of the same dimensions that agree on the square give the
same runs. -/
theorem haar_depends_on_square {α : Type} (assign_pixel : α → Nat)
    (junk1 junk2 : Nat → Nat → Nat) (self1 self2 : integral_image) (g1 g2 : Grid α)
    (p : point) (width : Int) (hw : 1 ≤ width)
    (hnr : g1.nr = g2.nr) (hnc : g1.nc = g2.nc) (hr : 0 < g1.nr)
    (hagree : ∀ r c : Nat, (centered_rect p width width).covers (c : Int) (r : Int) →
      assign_pixel (g1.pix r c) = assign_pixel (g2.pix r c)) :
    ∃ res1 res2, self1.load assign_pixel junk1 g1 = Except.ok res1
      ∧ self2.load assign_pixel junk2 g2 = Except.ok res2
      ∧ haar_x res1 p width = haar_x res2 p width
      ∧ haar_y res1 p width = haar_y res2 p width := by
  obtain ⟨res1, hload1, hnr1, hnc1, hcells1⟩ := load_table assign_pixel junk1 self1 g1 hr
  obtain ⟨res2, hload2, hnr2, hnc2, hcells2⟩ :=
    load_table assign_pixel junk2 self2 g2 (by omega)
  refine ⟨res1, res2, hload1, hload2, ?_⟩
  have hrect : get_rect res1 = get_rect res2 := by
    simp only [get_rect, integral_image.nr, integral_image.nc, hnr1, hnc1, hnr2, hnc2, hnr, hnc]
  cases hcont : (get_rect res1).contains (centered_rect p width width)
  · have hcont2 := hcont
    rw [hrect] at hcont2
    rw [haar_x_of_not_contains res1 p width hcont, haar_x_of_not_contains res2 p width hcont2,
      haar_y_of_not_contains res1 p width hcont, haar_y_of_not_contains res2 p width hcont2]
    exact ⟨rfl, rfl⟩
  · have hcont2 := hcont
    rw [hrect] at hcont2
    obtain ⟨c1, c2, c3, c4⟩ := center_in_square p width (by omega)
    obtain ⟨e1, e2, e3, e4⟩ := haar_rects_of_square p width
    have hd := (tdiv_two_bounds width).1 (by omega)
    have hin := hcont
    rw [contains_iff] at hin
    simp only [get_rect, integral_image.nr, integral_image.nc, hnr1, hnc1] at hin
    have hsq : (centered_rect p width width).left ≤ (centered_rect p width width).right
        ∧ (centered_rect p width width).top ≤ (centered_rect p width width).bottom := by
      simp only [centered_rect]; omega
    have hin2 : 0 ≤ (centered_rect p width width).left
        ∧ 0 ≤ (centered_rect p width width).top ∧ 0 < g1.nc := by
      split at hin
      · rw [hin] at hsq
        simp only at hsq
        omega
      · omega
    have hc1 : 0 < g1.nc := hin2.2.2
    have hX1 := haar_x_run assign_pixel g1 res1 hnr1 hnc1 hcells1 p width hw hr hc1 hcont
    have hX2 := haar_x_run assign_pixel g2 res2 hnr2 hnc2 hcells2 p width hw (by omega)
      (by omega) hcont2
    have hY1 := haar_y_run assign_pixel g1 res1 hnr1 hnc1 hcells1 p width hw hr hc1 hcont
    have hY2 := haar_y_run assign_pixel g2 res2 hnr2 hnc2 hcells2 p width hw (by omega)
      (by omega) hcont2
    constructor
    · by_cases hx : p.x = 0
      · rw [hX1.2 hx, hX2.2 hx]
      · have hx1 : 1 ≤ p.x := by omega
        rw [hX1.1 hx1, hX2.1 hx1]
        have hR : brute_sum assign_pixel g1 (haar_x_right_rect p width)
            = brute_sum assign_pixel g2 (haar_x_right_rect p width) := by
          apply brute_sum_congr
          · rw [e2]; simp only; omega
          · rw [e2]; simp only; omega
          · intro r c hcov
            apply hagree
            rw [e2] at hcov
            simp only [rectangle.covers] at hcov ⊢
            omega
        have hL : brute_sum assign_pixel g1 (haar_x_left_rect p width)
            = brute_sum assign_pixel g2 (haar_x_left_rect p width) := by
          apply brute_sum_congr
          · rw [e1]; simp only; omega
          · rw [e1]; simp only; omega
          · intro r c hcov
            apply hagree
            rw [e1] at hcov
            simp only [rectangle.covers] at hcov ⊢
            omega
        rw [hR, hL]
    · by_cases hy : p.y = 0
      · rw [hY1.2 hy, hY2.2 hy]
      · have hy1 : 1 ≤ p.y := by omega
        rw [hY1.1 hy1, hY2.1 hy1]
        have hB : brute_sum assign_pixel g1 (haar_y_bottom_rect p width)
            = brute_sum assign_pixel g2 (haar_y_bottom_rect p width) := by
          apply brute_sum_congr
          · rw [e4]; simp only; omega
          · rw [e4]; simp only; omega
          · intro r c hcov
            apply hagree
            rw [e4] at hcov
            simp only [rectangle.covers] at hcov ⊢
            omega
        have hT : brute_sum assign_pixel g1 (haar_y_top_rect p width)
            = brute_sum assign_pixel g2 (haar_y_top_rect p width) := by
          apply brute_sum_congr
          · rw [e3]; simp only; omega
          · rw [e3]; simp only; omega
          · intro r c hcov
            apply hagree
            rw [e3] at hcov
            simp only [rectangle.covers] at hcov ⊢
            omega
        rw [hB, hT]

/-- C18. Halves tile the centered square: for every center `p` and every
`width ≥ 1`, the left and the right rectangle built by `haar_x` have the rows of
the centered square of side `width` at `p`, have `width/2` and
`width - width/2` columns, are disjoint, and cover together exactly the pixels
of the square; the same holds for the top and the bottom rectangle of `haar_y`
with rows and columns exchanged.  Hence the sums over the two halves add up to
the sum over the square, and `haar_x` and `haar_y` do not depend on a pixel
outside the square: grids of the same dimensions that agree on the square give
the same runs. -/
theorem haar_halves_tile_square (p : point) (width : Int) (hw : 1 ≤ width) :
    ((haar_x_left_rect p width).top = (centered_rect p width width).top
      ∧ (haar_x_left_rect p width).bottom = (centered_rect p width width).bottom
      ∧ (haar_x_right_rect p width).top = (centered_rect p width width).top
      ∧ (haar_x_right_rect p width).bottom = (centered_rect p width width).bottom)
    ∧ ((haar_x_left_rect p width).columns = width.tdiv 2
      ∧ (haar_x_right_rect p width).columns = width - width.tdiv 2)
    ∧ (∀ x y : Int, ¬ ((haar_x_left_rect p width).covers x y
        ∧ (haar_x_right_rect p width).covers x y))
    ∧ (∀ x y : Int, ((haar_x_left_rect p width).covers x y
        ∨ (haar_x_right_rect p width).covers x y) ↔ (centered_rect p width width).covers x y)
    ∧ ((haar_y_top_rect p width).left = (centered_rect p width width).left
      ∧ (haar_y_top_rect p width).right = (centered_rect p width width).right
      ∧ (haar_y_bottom_rect p width).left = (centered_rect p width width).left
      ∧ (haar_y_bottom_rect p width).right = (centered_rect p width width).right)
    ∧ ((haar_y_top_rect p width).rows = width.tdiv 2
      ∧ (haar_y_bottom_rect p width).rows = width - width.tdiv 2)
    ∧ (∀ x y : Int, ¬ ((haar_y_top_rect p width).covers x y
        ∧ (haar_y_bottom_rect p width).covers x y))
    ∧ (∀ x y : Int, ((haar_y_top_rect p width).covers x y
        ∨ (haar_y_bottom_rect p width).covers x y) ↔ (centered_rect p width width).covers x y)
    ∧ (∀ (α : Type) (assign_pixel : α → Nat) (img : Grid α),
        brute_sum assign_pixel img (haar_x_left_rect p width)
            + brute_sum assign_pixel img (haar_x_right_rect p width)
          = brute_sum assign_pixel img (centered_rect p width width)
        ∧ brute_sum assign_pixel img (haar_y_top_rect p width)
            + brute_sum assign_pixel img (haar_y_bottom_rect p width)
          = brute_sum assign_pixel img (centered_rect p width width))
    ∧ (∀ (α : Type) (assign_pixel : α → Nat) (junk1 junk2 : Nat → Nat → Nat)
        (self1 self2 : integral_image) (g1 g2 : Grid α),
        g1.nr = g2.nr → g1.nc = g2.nc → 0 < g1.nr →
        (∀ r c : Nat, (centered_rect p width width).covers (c : Int) (r : Int) →
          assign_pixel (g1.pix r c) = assign_pixel (g2.pix r c)) →
        ∃ res1 res2, self1.load assign_pixel junk1 g1 = Except.ok res1
          ∧ self2.load assign_pixel junk2 g2 = Except.ok res2
          ∧ haar_x res1 p width = haar_x res2 p width
          ∧ haar_y res1 p width = haar_y res2 p width) := by
  have hd := (tdiv_two_bounds width).1 (by omega)
  refine ⟨?_, ?_, ?_, ?_, ?_, ?_, ?_, ?_, ?_, ?_⟩
  · exact ⟨rfl, rfl, rfl, rfl⟩
  · simp only [rectangle.columns, haar_x_left_rect, haar_x_right_rect]
    generalize width.tdiv 2 = d at hd ⊢
    omega
  · intro x y
    simp only [rectangle.covers, haar_x_left_rect, haar_x_right_rect]
    omega
  · intro x y
    simp only [rectangle.covers, haar_x_left_rect, haar_x_right_rect, centered_rect]
    generalize width.tdiv 2 = d at hd ⊢
    omega
  · exact ⟨rfl, rfl, rfl, rfl⟩
  · simp only [rectangle.rows, haar_y_top_rect, haar_y_bottom_rect]
    generalize width.tdiv 2 = d at hd ⊢
    omega
  · intro x y
    simp only [rectangle.covers, haar_y_top_rect, haar_y_bottom_rect]
    omega
  · intro x y
    simp only [rectangle.covers, haar_y_top_rect, haar_y_bottom_rect, centered_rect]
    generalize width.tdiv 2 = d at hd ⊢
    omega
  · intro α assign_pixel img
    exact haar_halves_sum assign_pixel img p width (by omega)
  · intro α assign_pixel junk1 junk2 self1 self2 g1 g2 hnr hnc hr hagree
    exact haar_depends_on_square assign_pixel junk1 junk2 self1 self2 g1 g2 p width hw hnr hnc
      hr hagree

/-- C18, witness: width 3 around `(2, 2)`.  The left rectangle is the column
`[1, 1]`, the right rectangle the columns `[2, 3]`, the top rectangle the row
`[1, 1]` and the bottom rectangle the rows `[2, 3]`; on a 5x5 grid of ones the
halves sum to `3 + 6 = 9`, the sum over the square `(1, 1, 3, 3)`. -/
theorem haar_halves_tile_square_witness :
    ((haar_x_left_rect ⟨2, 2⟩ 3).columns = 1 ∧ (haar_x_right_rect ⟨2, 2⟩ 3).columns = 2)
    ∧ ((haar_y_top_rect ⟨2, 2⟩ 3).rows = 1 ∧ (haar_y_bottom_rect ⟨2, 2⟩ 3).rows = 2)
    ∧ (brute_sum id (Grid.const 5 5 1) (haar_x_left_rect ⟨2, 2⟩ 3)
          + brute_sum id (Grid.const 5 5 1) (haar_x_right_rect ⟨2, 2⟩ 3)
        = brute_sum id (Grid.const 5 5 1) ⟨1, 1, 3, 3⟩)
    ∧ brute_sum id (Grid.const 5 5 1) ⟨1, 1, 3, 3⟩ = 9 :=
  ⟨(haar_halves_tile_square ⟨2, 2⟩ 3 (by decide)).2.1,
    (haar_halves_tile_square ⟨2, 2⟩ 3 (by decide)).2.2.2.2.2.1,
    ((haar_halves_tile_square ⟨2, 2⟩ 3 (by decide)).2.2.2.2.2.2.2.2.1 Nat id
      (Grid.const 5 5 1)).1, by decide⟩

/-! ## C12: mirrored grids -/

theorem sum_below_front (f : Nat → Nat) (n : Nat) :
    sum_below f (n + 1) = f 0 + sum_below (fun k => f (k + 1)) n := by
  have h := sum_below_shift f 1 n
  have e : (fun k => f (1 + k)) = fun k => f (k + 1) := by
    funext k; rw [Nat.add_comm]
  rw [e, Nat.add_comm 1 n] at h
  rw [← h]
  simp [sum_below]

theorem sum_below_reverse (f : Nat → Nat) (n : Nat) :
    sum_below (fun k => f (n - 1 - k)) n = sum_below f n := by
  induction n generalizing f with
  | zero => rfl
  | succ n ih =>
    rw [sum_below_front f n, ← ih (fun k => f (k + 1))]
    simp only [sum_below, Nat.add_sub_cancel, Nat.sub_self]
    rw [Nat.add_comm]
    congr 1
    apply sum_below_congr
    intro k hk
    congr 1
    omega

/-- A sum over the reversed column range. -/
theorem sum_range_reverse (f : Nat → Nat) (s a b : Int) (ha : 0 ≤ a) (hab : a ≤ b + 1) :
    sum_range (fun c => f (s - (c : Int)).toNat) a b = sum_range f (s - b) (s - a) := by
  unfold sum_range
  have en : (s - a + 1 - (s - b)).toNat = (b + 1 - a).toNat := by congr 1; omega
  rw [en, ← sum_below_reverse (fun k => f (s - b + (k : Int)).toNat)]
  apply sum_below_congr
  intro k hk
  beta_reduce
  congr 1
  omega

/-- In the mirrored grid the sum over a column range of the square is the sum
of the original grid over the reflected column range. -/
theorem brute_sum_mirror {α : Type} (assign_pixel : α → Nat) (img : Grid α) (sq : rectangle)
    (a b : Int) (hl : 0 ≤ sq.left) (ht : 0 ≤ sq.top) (ha : sq.left ≤ a) (hab : a ≤ b + 1)
    (hb : b ≤ sq.right) :
    brute_sum assign_pixel (img.mirror_columns sq) ⟨a, sq.top, b, sq.bottom⟩
      = brute_sum assign_pixel img
          ⟨sq.left + sq.right - b, sq.top, sq.left + sq.right - a, sq.bottom⟩ := by
  unfold brute_sum
  simp only
  apply sum_range_congr _ _ _ _ ht
  intro r hr1 hr2
  have hrow : sum_range (fun c => assign_pixel ((img.mirror_columns sq).pix r c)) a b
      = sum_range (fun c => assign_pixel (img.pix r (sq.left + sq.right - (c : Int)).toNat))
          a b := by
    apply sum_range_congr _ _ _ _ (by omega)
    intro c hc1 hc2
    have hin : sq.left ≤ (c : Int) ∧ (c : Int) ≤ sq.right ∧ sq.top ≤ (r : Int)
        ∧ (r : Int) ≤ sq.bottom := by omega
    simp only [Grid.mirror_columns, hin, and_self, if_true]
  rw [hrow]
  exact sum_range_reverse (fun c => assign_pixel (img.pix r c)) (sq.left + sq.right) a b
    (by omega) hab

/-- C12, counterexample: the 3x3 grid whose columns hold 1, 2 and 3, center
`(1, 1)` and the odd width 3.  The centered square is the whole grid; `haar_x`
returns `(2 + 3) * 3 - 1 * 3 = 12`, and on the grid with the columns reversed
(3, 2 and 1) it returns `(2 + 1) * 3 - 3 * 3 = 0`, not `-12`: the center column
belongs to the right rectangle in both. -/
theorem haar_x_not_antisymmetric_odd :
    centered_rect ⟨1, 1⟩ 3 3 = ⟨0, 0, 2, 2⟩
    ∧ (integral_image.empty.load id (fun _ _ => 0) (⟨3, 3, fun _ c => c + 1⟩ : Grid Nat)
        >>= fun img => pure ((get_rect img).contains (centered_rect ⟨1, 1⟩ 3 3)))
      = Except.ok true
    ∧ (integral_image.empty.load id (fun _ _ => 0) (⟨3, 3, fun _ c => c + 1⟩ : Grid Nat)
        >>= fun img => haar_x img ⟨1, 1⟩ 3)
      = Except.ok 12
    ∧ (integral_image.empty.load id (fun _ _ => 0)
          ((⟨3, 3, fun _ c => c + 1⟩ : Grid Nat).mirror_columns (centered_rect ⟨1, 1⟩ 3 3))
        >>= fun img => haar_x img ⟨1, 1⟩ 3)
      = Except.ok 0
    ∧ (List.range 3).map
        (((⟨3, 3, fun _ c => c + 1⟩ : Grid Nat).mirror_columns (centered_rect ⟨1, 1⟩ 3 3)).pix 1)
      = [3, 2, 1] := by
  decide

/-- C12, amended. Haar antisymmetry for even widths: for every source grid,
point `p` and even width `w ≥ 2` whose centered square lies inside the full
extent, with the sums over the two halves below `2^63`: if `g'` is `g` with the
columns of the centered square reversed, then `haar_x(load(g'), p, w)` is
`-haar_x(load(g), p, w)`. -/
theorem haar_x_antisymmetric_even {α : Type} (assign_pixel : α → Nat)
    (junk1 junk2 : Nat → Nat → Nat) (self1 self2 : integral_image) (img : Grid α)
    (p : point) (width : Int) (hw : 2 ≤ width) (heven : width % 2 = 0)
    (hl : 0 ≤ (centered_rect p width width).left) (ht : 0 ≤ (centered_rect p width width).top)
    (hr : (centered_rect p width width).right ≤ (img.nc : Int) - 1)
    (hb : (centered_rect p width width).bottom ≤ (img.nr : Int) - 1)
    (hR : brute_sum assign_pixel img (haar_x_right_rect p width) < LONG_LIMIT)
    (hL : brute_sum assign_pixel img (haar_x_left_rect p width) < LONG_LIMIT) :
    ∃ res res', self1.load assign_pixel junk1 img = Except.ok res
      ∧ self2.load assign_pixel junk2 (img.mirror_columns (centered_rect p width width))
          = Except.ok res'
      ∧ (get_rect res).contains (centered_rect p width width) = true
      ∧ (get_rect res').contains (centered_rect p width width) = true
      ∧ ∃ v, haar_x res p width = Except.ok v ∧ haar_x res' p width = Except.ok (-v) := by
  have hd := (tdiv_two_bounds width).1 (by omega)
  have hsq : centered_rect p width width = ⟨p.x - width.tdiv 2, p.y - width.tdiv 2,
      p.x - width.tdiv 2 + width - 1, p.y - width.tdiv 2 + width - 1⟩ := rfl
  rw [hsq] at hl ht hr hb
  simp only at hl ht hr hb
  have hnr0 : 0 < img.nr := by omega
  have hnc0 : 0 < img.nc := by omega
  obtain ⟨res, hload, hnr, hnc, hcells⟩ := load_table assign_pixel junk1 self1 img hnr0
  obtain ⟨res', hload', hnr', hnc', hcells'⟩ := load_table assign_pixel junk2 self2
    (img.mirror_columns (centered_rect p width width)) hnr0
  have hdim1 : (img.mirror_columns (centered_rect p width width)).nr = img.nr := rfl
  have hdim2 : (img.mirror_columns (centered_rect p width width)).nc = img.nc := rfl
  rw [hdim1] at hnr'
  rw [hdim2] at hnc'
  have hcont : (get_rect res).contains (centered_rect p width width) = true :=
    contains_of_inside res _ (by rw [hsq]; simp only; omega) (by rw [hsq]; simp only; omega)
      (by rw [hsq]; simp only; omega) (by rw [hsq]; simp only; omega)
      (by rw [hsq]; simp only [integral_image.nc, hnc]; omega)
      (by rw [hsq]; simp only [integral_image.nr, hnr]; omega)
  have hcont' : (get_rect res').contains (centered_rect p width width) = true :=
    contains_of_inside res' _ (by rw [hsq]; simp only; omega) (by rw [hsq]; simp only; omega)
      (by rw [hsq]; simp only; omega) (by rw [hsq]; simp only; omega)
      (by rw [hsq]; simp only [integral_image.nc, hnc']; omega)
      (by rw [hsq]; simp only [integral_image.nr, hnr']; omega)
  have hx : 1 ≤ p.x := by omega
  have hrun := (haar_x_run assign_pixel img res hnr hnc hcells p width (by omega) hnr0 hnc0
    hcont).1 hx
  have hrun' := (haar_x_run assign_pixel (img.mirror_columns (centered_rect p width width))
    res' hnr' hnc' hcells' p width (by omega) hnr0 hnc0 hcont').1 hx
  have hmR : brute_sum assign_pixel (img.mirror_columns (centered_rect p width width))
      (haar_x_right_rect p width) = brute_sum assign_pixel img (haar_x_left_rect p width) := by
    have h := brute_sum_mirror assign_pixel img (centered_rect p width width) p.x
      (centered_rect p width width).right (by rw [hsq]; simp only; omega)
      (by rw [hsq]; simp only; omega) (by rw [hsq]; simp only; omega)
      (by rw [hsq]; simp only; omega) (le_refl _)
    have e1 : haar_x_right_rect p width = ⟨p.x, (centered_rect p width width).top,
        (centered_rect p width width).right, (centered_rect p width width).bottom⟩ := rfl
    have e2 : haar_x_left_rect p width
        = ⟨(centered_rect p width width).left + (centered_rect p width width).right
            - (centered_rect p width width).right, (centered_rect p width width).top,
          (centered_rect p width width).left + (centered_rect p width width).right - p.x,
          (centered_rect p width width).bottom⟩ := by
      simp only [haar_x_left_rect, centered_rect, rectangle.mk.injEq]
      refine ⟨?_, ?_, ?_, ?_⟩ <;> first | trivial | omega
    rw [e1, h, ← e2]
  have hmL : brute_sum assign_pixel (img.mirror_columns (centered_rect p width width))
      (haar_x_left_rect p width) = brute_sum assign_pixel img (haar_x_right_rect p width) := by
    have h := brute_sum_mirror assign_pixel img (centered_rect p width width)
      (centered_rect p width width).left (p.x - 1) (by rw [hsq]; simp only; omega)
      (by rw [hsq]; simp only; omega) (le_refl _)
      (by rw [hsq]; simp only; omega) (by rw [hsq]; simp only; omega)
    have e1 : haar_x_left_rect p width = ⟨(centered_rect p width width).left,
        (centered_rect p width width).top, p.x - 1,
        (centered_rect p width width).bottom⟩ := rfl
    have e2 : haar_x_right_rect p width
        = ⟨(centered_rect p width width).left + (centered_rect p width width).right
            - (p.x - 1), (centered_rect p width width).top,
          (centered_rect p width width).left + (centered_rect p width width).right
            - (centered_rect p width width).left,
          (centered_rect p width width).bottom⟩ := by
      simp only [haar_x_right_rect, haar_x_left_rect, centered_rect, rectangle.mk.injEq]
      refine ⟨?_, ?_, ?_, ?_⟩ <;> first | trivial | omega
    rw [e1, h, ← e2]
  rw [hmR, hmL] at hrun'
  rw [to_long_of_lt _ hR, to_long_of_lt _ hL, long_sub_of_small _ _ hR hL] at hrun
  rw [to_long_of_lt _ hR, to_long_of_lt _ hL, long_sub_of_small _ _ hL hR] at hrun'
  refine ⟨res, res', hload, hload', hcont, hcont', _, hrun, ?_⟩
  rw [hrun']
  congr 1
  omega

/-- C12, witness: the grid of 3 rows whose 4 columns hold 1, 2, 3 and 4, center
`(2, 1)` and width 2.  The centered square is `(1, 0, 2, 1)`; `haar_x` returns
`3 * 2 - 2 * 2 = 2`, and `-2` on the grid with the columns 1 and 2 exchanged. -/
theorem haar_x_antisymmetric_even_witness :
    (∃ res res',
      integral_image.empty.load id (fun _ _ => 0) (⟨3, 4, fun _ c => c + 1⟩ : Grid Nat)
          = Except.ok res
      ∧ integral_image.empty.load id (fun _ _ => 0)
          ((⟨3, 4, fun _ c => c + 1⟩ : Grid Nat).mirror_columns (centered_rect ⟨2, 1⟩ 2 2))
          = Except.ok res'
      ∧ ∃ v, haar_x res ⟨2, 1⟩ 2 = Except.ok v ∧ haar_x res' ⟨2, 1⟩ 2 = Except.ok (-v))
    ∧ (integral_image.empty.load id (fun _ _ => 0) (⟨3, 4, fun _ c => c + 1⟩ : Grid Nat)
        >>= fun img => haar_x img ⟨2, 1⟩ 2)
      = Except.ok 2
    ∧ (integral_image.empty.load id (fun _ _ => 0)
          ((⟨3, 4, fun _ c => c + 1⟩ : Grid Nat).mirror_columns (centered_rect ⟨2, 1⟩ 2 2))
        >>= fun img => haar_x img ⟨2, 1⟩ 2)
      = Except.ok (-2) := by
  refine ⟨?_, by decide, by decide⟩
  obtain ⟨res, res', h1, h2, _, _, v, hv1, hv2⟩ := haar_x_antisymmetric_even id (fun _ _ => 0)
    (fun _ _ => 0) integral_image.empty integral_image.empty
    (⟨3, 4, fun _ c => c + 1⟩ : Grid Nat) ⟨2, 1⟩ 2 (by decide) (by decide) (by decide)
    (by decide) (by decide) (by decide) (by decide) (by decide)
  exact ⟨res, res', h1, h2, v, hv1, hv2⟩

end dlib
